import Mathlib

/-!
Formal model of LightGBM's ranking objective engine
(`src/objective/rank_objective.hpp`): the `RankingObjective` dispatcher, the
`LambdarankNDCG` pairwise gradient computer with its sigmoid lookup table and
position-bias estimator, and the `RankXENDCG` listwise objective.

Modelling conventions:
* C++ `double`/`float` (`score_t`, `label_t`) arithmetic is modelled over `ℝ`;
  the `static_cast<score_t>` narrowing casts are identities in this model.
* Arrays are modelled as total functions `ℕ → ℝ` (resp. lists of indices);
  the source's vectors are sized as documented at each definition.
* Division in `ℝ` is total with `x / 0 = 0`; every place where the source can
  divide by zero (IEEE `NaN`/`Inf`) is flagged in a comment at the theorem
  that depends on it.
* External collaborators that are not part of this translation unit
  (`DCGCalculator`, `Common::Softmax`, `Random`, the `kMinScore`/`kEpsilon`
  constants) are modelled from the spec; each such definition says so.
-/

noncomputable section

/-- Modelled from the spec: the reserved "sentinel minimum score" (`kMinScore`
from the external `meta.h`, `-∞` as a double).  `ℝ` has no infinity, so we use
a real number below every finite double; the engine only ever compares scores
to it for equality, so only its identity matters. -/
def kMinScore : ℝ := -(2 ^ 1024)

/-- `_sigmoid_bins = 1024 * 1024`, the fixed bin count of the sigmoid table. -/
def sigmoidBins : ℕ := 1024 * 1024

/-- `min_sigmoid_input_` after `ConstructSigmoidTable` rescales the raw bound
`-50`: `min_sigmoid_input_ = min_sigmoid_input_ / sigmoid_ / 2`. -/
def minSigmoidInput (s : ℝ) : ℝ := -50 / s / 2

/-- `max_sigmoid_input_ = -min_sigmoid_input_`. -/
def maxSigmoidInput (s : ℝ) : ℝ := -minSigmoidInput s

/-- `sigmoid_table_idx_factor_ = _sigmoid_bins / (max_sigmoid_input_ - min_sigmoid_input_)`. -/
def sigmoidTableIdxFactor (s : ℝ) : ℝ :=
  (sigmoidBins : ℝ) / (maxSigmoidInput s - minSigmoidInput s)

/-- Entry `i` of `sigmoid_table_`: the cache loop stores
`1.0 / (1.0 + exp(score * sigmoid_))` at `score = i / sigmoid_table_idx_factor_ + min_sigmoid_input_`. -/
def sigmoidTable (s : ℝ) (i : ℕ) : ℝ :=
  1 / (1 + Real.exp (((i : ℝ) / sigmoidTableIdxFactor s + minSigmoidInput s) * s))

/-- `GetSigmoid`: clamp to the first entry at or below `min_sigmoid_input_`, to
the last entry at or above `max_sigmoid_input_`, otherwise read the bin at
`static_cast<size_t>((score - min_sigmoid_input_) * sigmoid_table_idx_factor_)`
(truncation of a nonnegative double, i.e. `Nat.floor`). -/
def getSigmoid (s x : ℝ) : ℝ :=
  if x ≤ minSigmoidInput s then sigmoidTable s 0
  else if maxSigmoidInput s ≤ x then sigmoidTable s (sigmoidBins - 1)
  else sigmoidTable s ⌊(x - minSigmoidInput s) * sigmoidTableIdxFactor s⌋₊

/-- The direct (non-tabulated) evaluation `1 / (1 + exp(x * steepness))` that
the table approximates. -/
def directSigmoid (s x : ℝ) : ℝ := 1 / (1 + Real.exp (x * s))

/-- Modelled from the spec: `DCGCalculator::GetDiscount(r) = 1 / log2(2 + r)`
(external DCG utility library; the source's comment states the formula). -/
def discount (r : ℕ) : ℝ := 1 / Real.logb 2 ((r : ℝ) + 2)

/-- Modelled from the spec: the default label-gain table produced by
`DCGCalculator::DefaultLabelGain`, `gain(l) = 2^l - 1`. -/
def defaultLabelGain (l : ℤ) : ℝ := 2 ^ l - 1

/-- `static_cast<int>` of a double: truncation toward zero. -/
def truncInt (x : ℝ) : ℤ := if x < 0 then ⌈x⌉ else ⌊x⌋

/-- One step of the stable descending insertion used to model
`std::stable_sort(sorted_idx, [score](a, b){ return score[a] > score[b]; })`:
`a` (earlier in original order than everything in the list) is placed before
the first element whose score is not strictly greater than `score a`, so ties
keep original order. -/
def insertDesc (score : ℕ → ℝ) (a : ℕ) : List ℕ → List ℕ
  | [] => [a]
  | b :: t => if score b > score a then b :: insertDesc score a t else a :: b :: t

/-- `sorted_idx`: the indices `0, 1, ..., cnt-1` stably sorted by descending
score. -/
def sortedIdx (cnt : ℕ) (score : ℕ → ℝ) : List ℕ :=
  (List.range cnt).foldr (insertDesc score) []

/-- `sorted_idx[r]` as a total function (out-of-range reads, which the source
leaves undefined, return index 0 here). -/
def docAt (cnt : ℕ) (score : ℕ → ℝ) (r : ℕ) : ℕ :=
  (sortedIdx cnt score).getD r 0

/-- The `worst_idx` computation: start from `cnt - 1` and step one rank up when
that document carries the sentinel score (and `worst_idx > 0`). -/
def worstIdx (cnt : ℕ) (score : ℕ → ℝ) : ℕ :=
  if 0 < cnt - 1 ∧ score (docAt cnt score (cnt - 1)) = kMinScore then cnt - 1 - 1 else cnt - 1

/-- The configuration and per-query read-only engine state consumed by
`LambdarankNDCG::GetGradientsForOneQuery`: the constructor parameters
(`sigmoid_`, `norm_`, `lambdarank_truncation_level`, `lambdarank_unbiased`),
the label-gain table, this query's cached `inverse_max_dcgs_[query_id]`, and
the current position-bias power arrays `i_biases_pow_` / `j_biases_pow_`. -/
structure LambdaCfg where
  sigmoid : ℝ
  norm : Bool
  trunc : ℕ
  unbiased : Bool
  invMaxDcg : ℝ
  labelGain : ℤ → ℝ
  ipow : ℕ → ℝ
  jpow : ℕ → ℝ

/-- The mutable per-query state threaded through the pair loop: the output
`lambdas`/`hessians` slices, the running `sum_lambdas`, and the calling
thread's cost buffers `i_costs_buffer_[tid]` / `j_costs_buffer_[tid]`. -/
structure QState where
  lambdas : ℕ → ℝ
  hessians : ℕ → ℝ
  sumLambdas : ℝ
  iCostBuf : ℕ → ℝ
  jCostBuf : ℕ → ℝ

/-- The high/low rank assignment: `high_rank = i` iff
`label[sorted_idx[i]] > label[sorted_idx[j]]`, else `high_rank = j`. -/
def pairHighLow (label : ℕ → ℝ) (u : ℕ → ℕ) (i j : ℕ) : ℕ × ℕ :=
  if label (u j) < label (u i) then (i, j) else (j, i)

/-- `delta_pair_NDCG` for the pair at ranks `(i, j)`:
`dcg_gap * paired_discount * inverse_max_dcg`, rescaled by
`1 / (0.01 + |delta_score|)` when `(norm_ || unbiased_)` and the query's best
and worst scores differ.  (The source's `0.01f` float literal is modelled as
the real `0.01`.) -/
def pairDeltaNdcg (cfg : LambdaCfg) (label score : ℕ → ℝ) (u : ℕ → ℕ)
    (best worst : ℝ) (i j : ℕ) : ℝ :=
  let hr := (pairHighLow label u i j).1
  let lr := (pairHighLow label u i j).2
  let dcgGap := cfg.labelGain (truncInt (label (u hr))) - cfg.labelGain (truncInt (label (u lr)))
  let pairedDiscount := |discount hr - discount lr|
  let d := dcgGap * pairedDiscount * cfg.invMaxDcg
  if (cfg.norm = true ∨ cfg.unbiased = true) ∧ best ≠ worst
    then d / (0.01 + |score (u hr) - score (u lr)|) else d

/-- The final `p_lambda` of a pair:
`GetSigmoid(delta_score) * (-sigmoid_ * delta_pair_NDCG / i_biases_pow_[high_rank] / j_biases_pow_[low_rank])`. -/
def pairPLambda (cfg : LambdaCfg) (label score : ℕ → ℝ) (u : ℕ → ℕ)
    (best worst : ℝ) (i j : ℕ) : ℝ :=
  let hr := (pairHighLow label u i j).1
  let lr := (pairHighLow label u i j).2
  getSigmoid cfg.sigmoid (score (u hr) - score (u lr)) *
    (-cfg.sigmoid * pairDeltaNdcg cfg label score u best worst i j / cfg.ipow hr / cfg.jpow lr)

/-- The final `p_hessian` of a pair:
`p_lambda * (1 - p_lambda) * sigmoid_^2 * delta_pair_NDCG / i_biases_pow_[high_rank] / j_biases_pow_[low_rank]`
(where the first factor uses the raw sigmoid value before `p_lambda` is
rescaled). -/
def pairPHessian (cfg : LambdaCfg) (label score : ℕ → ℝ) (u : ℕ → ℕ)
    (best worst : ℝ) (i j : ℕ) : ℝ :=
  let hr := (pairHighLow label u i j).1
  let lr := (pairHighLow label u i j).2
  let p := getSigmoid cfg.sigmoid (score (u hr) - score (u lr))
  p * (1 - p) *
    (cfg.sigmoid * cfg.sigmoid * pairDeltaNdcg cfg label score u best worst i j / cfg.ipow hr / cfg.jpow lr)

/-- The unbiased-mode `p_cost = log(1 / (1 - p_lambda)) * delta_pair_NDCG`
(again with the raw sigmoid value). -/
def pairPCost (cfg : LambdaCfg) (label score : ℕ → ℝ) (u : ℕ → ℕ)
    (best worst : ℝ) (i j : ℕ) : ℝ :=
  let hr := (pairHighLow label u i j).1
  let lr := (pairHighLow label u i j).2
  Real.log (1 / (1 - getSigmoid cfg.sigmoid (score (u hr) - score (u lr)))) *
    pairDeltaNdcg cfg label score u best worst i j

/-- One iteration of the inner pair loop, for the pair of ranks
`pr = (i, j)`: the three `continue` guards (sentinel score at either endpoint,
equal labels), the cost-buffer accumulation when `unbiased_`, and the
in-place `lambdas`/`hessians`/`sum_lambdas` updates, in source order. -/
def stepPair (cfg : LambdaCfg) (label score : ℕ → ℝ) (u : ℕ → ℕ)
    (best worst : ℝ) (s : QState) (pr : ℕ × ℕ) : QState :=
  if score (u pr.1) = kMinScore then s
  else if score (u pr.2) = kMinScore then s
  else if label (u pr.1) = label (u pr.2) then s
  else
    let hr := (pairHighLow label u pr.1 pr.2).1
    let lr := (pairHighLow label u pr.1 pr.2).2
    let high := u hr
    let low := u lr
    let pc := pairPCost cfg label score u best worst pr.1 pr.2
    let pl := pairPLambda cfg label score u best worst pr.1 pr.2
    let ph := pairPHessian cfg label score u best worst pr.1 pr.2
    let ib := if cfg.unbiased = true
      then Function.update s.iCostBuf hr (s.iCostBuf hr + pc / cfg.jpow lr) else s.iCostBuf
    let jb := if cfg.unbiased = true
      then Function.update s.jCostBuf lr (s.jCostBuf lr + pc / cfg.ipow hr) else s.jCostBuf
    let lam1 := Function.update s.lambdas low (s.lambdas low - pl)
    let lam2 := Function.update lam1 high (lam1 high + pl)
    let hes1 := Function.update s.hessians low (s.hessians low + ph)
    let hes2 := Function.update hes1 high (hes1 high + ph)
    { lambdas := lam2, hessians := hes2, sumLambdas := s.sumLambdas - 2 * pl,
      iCostBuf := ib, jCostBuf := jb }

/-- The rank pairs visited by the double loop
`for (i = 0; i < cnt - 1 && i < truncation_level_; ++i) for (j = i + 1; j < cnt; ++j)`,
in program order. -/
def pairList (cnt trunc : ℕ) : List (ℕ × ℕ) :=
  (List.range (min (cnt - 1) trunc)).flatMap
    (fun i => (List.range' (i + 1) (cnt - 1 - i)).map (fun j => (i, j)))

/-- The state at entry of the pair loop: the initialization loop zeroes
`lambdas[0..cnt)` and `hessians[0..cnt)` (entries outside this query's slice
keep their prior contents `L0`/`H0`), `sum_lambdas = 0`, and the calling
thread's cost buffers hold their prior contents. -/
def initQState (cnt : ℕ) (L0 H0 iB0 jB0 : ℕ → ℝ) : QState :=
  { lambdas := fun d => if d < cnt then 0 else L0 d,
    hessians := fun d => if d < cnt then 0 else H0 d,
    sumLambdas := 0, iCostBuf := iB0, jCostBuf := jB0 }

/-- The accumulated state after the full pair loop of
`LambdarankNDCG::GetGradientsForOneQuery`, before the optional normalization
step. -/
def accState (cfg : LambdaCfg) (cnt : ℕ) (label score L0 H0 iB0 jB0 : ℕ → ℝ) : QState :=
  (pairList cnt cfg.trunc).foldl
    (stepPair cfg label score (docAt cnt score)
      (score (docAt cnt score 0)) (score (docAt cnt score (worstIdx cnt score))))
    (initQState cnt L0 H0 iB0 jB0)

/-- The trailing normalization loop: every `lambdas[i]`/`hessians[i]` of this
query is multiplied by `norm_factor = log2(1 + sum_lambdas) / sum_lambdas`. -/
def normalizeState (cnt : ℕ) (s : QState) : QState :=
  { s with
    lambdas := fun d => if d < cnt then s.lambdas d * (Real.logb 2 (1 + s.sumLambdas) / s.sumLambdas) else s.lambdas d,
    hessians := fun d => if d < cnt then s.hessians d * (Real.logb 2 (1 + s.sumLambdas) / s.sumLambdas) else s.hessians d }

/-- `LambdarankNDCG::GetGradientsForOneQuery`: run the pair loop, then apply
the normalization loop exactly when `norm_ && sum_lambdas > 0`. -/
def getGradientsForOneQuery (cfg : LambdaCfg) (cnt : ℕ)
    (label score L0 H0 iB0 jB0 : ℕ → ℝ) : QState :=
  if cfg.norm = true ∧ 0 < (accState cfg cnt label score L0 H0 iB0 jB0).sumLambdas
    then normalizeState cnt (accState cfg cnt label score L0 H0 iB0 jB0)
    else accState cfg cnt label score L0 H0 iB0 jB0

/-- The persistent position-bias model: `i_biases_pow_`, `j_biases_pow_`, the
global cost accumulators `i_costs_`/`j_costs_`, and the per-thread buffers
`i_costs_buffer_`/`j_costs_buffer_` (thread index first).  The source sizes
every vector to `truncation_level_`; entries at or beyond it model memory the
source never touches legally. -/
structure BiasState where
  ipow : ℕ → ℝ
  jpow : ℕ → ℝ
  iCosts : ℕ → ℝ
  jCosts : ℕ → ℝ
  iBufs : ℕ → ℕ → ℝ
  jBufs : ℕ → ℕ → ℝ

/-- `InitPositionBiasesAndGradients`: biases seeded to `1.0`, costs and all
thread buffers to `0.0`. -/
def initBiasState : BiasState :=
  { ipow := fun _ => 1, jpow := fun _ => 1,
    iCosts := fun _ => 0, jCosts := fun _ => 0,
    iBufs := fun _ _ => 0, jBufs := fun _ _ => 0 }

/-- `i_costs_[r]` right after the buffer-reduction loop of
`UpdatePositionBiasesAndGradients`: the prior accumulator plus the sum of all
thread buffers at rank `r`. -/
def accICosts (numThreads : ℕ) (st : BiasState) (r : ℕ) : ℝ :=
  st.iCosts r + ∑ t ∈ Finset.range numThreads, st.iBufs t r

/-- Symmetric accumulation for `j_costs_[r]`. -/
def accJCosts (numThreads : ℕ) (st : BiasState) (r : ℕ) : ℝ :=
  st.jCosts r + ∑ t ∈ Finset.range numThreads, st.jBufs t r

/-- `UpdatePositionBiasesAndGradients`: reduce the thread buffers into the
cost accumulators and clear the buffers; set
`i_biases_pow_[r] = pow(i_costs_[r] / i_costs_[0], eta_)` (and symmetrically
for `j`) for every rank `r < truncation_level_`; finally clear the cost
accumulators.  `pow` is modelled by `Real.rpow`; the source's `pow` on a
`0/0 = NaN` base yields `NaN` where the model yields `0` — every theorem
touching that case states a conclusion that holds for both. -/
def updatePositionBiases (trunc numThreads : ℕ) (eta : ℝ) (st : BiasState) : BiasState :=
  { ipow := fun r => if r < trunc
      then (accICosts numThreads st r / accICosts numThreads st 0) ^ eta else st.ipow r,
    jpow := fun r => if r < trunc
      then (accJCosts numThreads st r / accJCosts numThreads st 0) ^ eta else st.jpow r,
    iCosts := fun r => if r < trunc then 0 else st.iCosts r,
    jCosts := fun r => if r < trunc then 0 else st.jCosts r,
    iBufs := fun t r => if t < numThreads ∧ r < trunc then 0 else st.iBufs t r,
    jBufs := fun t r => if t < numThreads ∧ r < trunc then 0 else st.jBufs t r }

/-- Modelled from the spec: `kEpsilon` from the external common utilities,
the small positive floor of the XE-NDCG denominator. -/
def kEpsilon : ℝ := 1e-15

/-- Modelled from the spec: `Common::Softmax` over this query's scores
(external utility; the spec calls it "a softmax probability distribution
`rho` over current scores"). -/
def softmaxRho (cnt : ℕ) (score : ℕ → ℝ) (i : ℕ) : ℝ :=
  Real.exp (score i) / ∑ j ∈ Finset.range cnt, Real.exp (score j)

/-- `RankXENDCG::Phi(l, g) = Common::Pow(2, int(l)) - g`. -/
def phi (l g : ℝ) : ℝ := 2 ^ truncInt l - g

/-- `inv_denominator = 1 / max(kEpsilon, sum of params)`. -/
def xenInvDenominator (cnt : ℕ) (label rand : ℕ → ℝ) : ℝ :=
  1 / max kEpsilon (∑ i ∈ Finset.range cnt, phi (label i) (rand i))

/-- First-pass term: `-params[i] * inv_denominator + rho[i]` (written into
`lambdas[i]`). -/
def xenTerm1 (cnt : ℕ) (label score rand : ℕ → ℝ) (i : ℕ) : ℝ :=
  -(phi (label i) (rand i)) * xenInvDenominator cnt label rand + softmaxRho cnt score i

/-- After the first pass `params[i]` stores `term / (1 - rho[i])`. -/
def xenQ1 (cnt : ℕ) (label score rand : ℕ → ℝ) (i : ℕ) : ℝ :=
  xenTerm1 cnt label score rand i / (1 - softmaxRho cnt score i)

/-- `sum_l1`, accumulated over the first pass. -/
def xenSumL1 (cnt : ℕ) (label score rand : ℕ → ℝ) : ℝ :=
  ∑ i ∈ Finset.range cnt, xenQ1 cnt label score rand i

/-- Second-pass term: `rho[i] * (sum_l1 - params[i])` (added to `lambdas[i]`). -/
def xenTerm2 (cnt : ℕ) (label score rand : ℕ → ℝ) (i : ℕ) : ℝ :=
  softmaxRho cnt score i * (xenSumL1 cnt label score rand - xenQ1 cnt label score rand i)

/-- After the second pass `params[i]` stores `term / (1 - rho[i])`. -/
def xenQ2 (cnt : ℕ) (label score rand : ℕ → ℝ) (i : ℕ) : ℝ :=
  xenTerm2 cnt label score rand i / (1 - softmaxRho cnt score i)

/-- `sum_l2`, accumulated over the second pass. -/
def xenSumL2 (cnt : ℕ) (label score rand : ℕ → ℝ) : ℝ :=
  ∑ i ∈ Finset.range cnt, xenQ2 cnt label score rand i

/-- `RankXENDCG::GetGradientsForOneQuery`, lambda output: the `cnt <= 1` guard
writes zeroes; otherwise the three passes accumulate
`term1 + term2 + rho[i] * (sum_l2 - params[i])` into `lambdas[i]`.
`rand i` models the draw `rands_[query_id].NextFloat()` made for document `i`
on this call (the external `Random` stream). -/
def rankXendcgLambdas (cnt : ℕ) (label score rand L0 : ℕ → ℝ) : ℕ → ℝ :=
  if cnt ≤ 1 then fun d => if d < cnt then 0 else L0 d
  else fun d => if d < cnt then
      xenTerm1 cnt label score rand d + xenTerm2 cnt label score rand d +
        softmaxRho cnt score d * (xenSumL2 cnt label score rand - xenQ2 cnt label score rand d)
    else L0 d

/-- `RankXENDCG::GetGradientsForOneQuery`, hessian output:
zeroes under the `cnt <= 1` guard, else `rho[i] * (1 - rho[i])`. -/
def rankXendcgHessians (cnt : ℕ) (label score rand H0 : ℕ → ℝ) : ℕ → ℝ :=
  if cnt ≤ 1 then fun d => if d < cnt then 0 else H0 d
  else fun d => if d < cnt
    then softmaxRho cnt score d * (1 - softmaxRho cnt score d) else H0 d

/-- `RankingObjective::Init`: `Log::Fatal` (modelled as `Except.error`) exactly
when the query-boundary metadata is absent, otherwise the boundaries are
stored. -/
def rankingObjectiveInit (queryBoundaries : Option (ℕ → ℕ)) : Except String (ℕ → ℕ) :=
  match queryBoundaries with
  | none => Except.error "Ranking tasks require query information"
  | some qb => Except.ok qb

/-- The `LambdarankNDCG` constructor: `Log::Fatal` exactly when
`sigmoid_ <= 0`, otherwise construction completes with the given steepness. -/
def lambdarankConstruct (sigmoid : ℝ) : Except String ℝ :=
  if sigmoid ≤ 0 then Except.error "Sigmoid param should be greater than zero"
  else Except.ok sigmoid

/-- The document values `[1, 0]` used both as labels and as scores of the
concrete two-document probe query below. -/
def probeVals : ℕ → ℝ := fun d => if d = 0 then 1 else 0

/-- A concrete unbiased-mode run on one two-document query (labels `[1, 0]`,
scores `[1, 0]`, truncation level 2, inverse max DCG 1, default gains,
freshly seeded all-one bias powers): the per-query state it produces,
including thread 0's accumulated cost buffers. -/
def biasProbeQuery : QState :=
  getGradientsForOneQuery
    ⟨1, false, 2, true, 1, defaultLabelGain, fun _ => 1, fun _ => 1⟩ 2
    probeVals probeVals
    (fun _ => 0) (fun _ => 0) (fun _ => 0) (fun _ => 0)

/-- The engine's bias state when `UpdatePositionBiasesAndGradients` runs after
that single-query iteration on one thread: biases and costs as seeded by
`InitPositionBiasesAndGradients`, thread 0's buffers holding the query's
accumulated costs. -/
def biasProbeState : BiasState :=
  { ipow := fun _ => 1, jpow := fun _ => 1,
    iCosts := fun _ => 0, jCosts := fun _ => 0,
    iBufs := fun t r => if t = 0 then biasProbeQuery.iCostBuf r else 0,
    jBufs := fun t r => if t = 0 then biasProbeQuery.jCostBuf r else 0 }

lemma sigmoidTable_eq_direct (s : ℝ) (i : ℕ) :
    sigmoidTable s i = directSigmoid s ((i : ℝ) / sigmoidTableIdxFactor s + minSigmoidInput s) :=
  rfl

lemma directSigmoid_pos (s x : ℝ) : 0 < directSigmoid s x := by
  have h := Real.exp_pos (x * s)
  unfold directSigmoid
  positivity

lemma directSigmoid_lt_one (s x : ℝ) : directSigmoid s x < 1 := by
  have h := Real.exp_pos (x * s)
  rw [directSigmoid, div_lt_one (by linarith)]
  linarith

lemma sigmoidTable_pos (s : ℝ) (i : ℕ) : 0 < sigmoidTable s i :=
  directSigmoid_pos _ _

lemma sigmoidTable_lt_one (s : ℝ) (i : ℕ) : sigmoidTable s i < 1 :=
  directSigmoid_lt_one _ _

/-- Every value `GetSigmoid` can return is a stored table entry, hence lies in
the open interval `(0, 1)`. -/
lemma getSigmoid_pos (s x : ℝ) : 0 < getSigmoid s x := by
  unfold getSigmoid
  split_ifs <;> exact sigmoidTable_pos _ _

lemma getSigmoid_lt_one (s x : ℝ) : getSigmoid s x < 1 := by
  unfold getSigmoid
  split_ifs <;> exact sigmoidTable_lt_one _ _

lemma minSigmoidInput_neg {s : ℝ} (hs : 0 < s) : minSigmoidInput s < 0 := by
  unfold minSigmoidInput
  have h : (0:ℝ) < 50 / s / 2 := by positivity
  have he : (-50 : ℝ) / s / 2 = -(50 / s / 2) := by ring
  rw [he]
  linarith

lemma maxSigmoidInput_pos {s : ℝ} (hs : 0 < s) : 0 < maxSigmoidInput s := by
  have := minSigmoidInput_neg hs
  unfold maxSigmoidInput
  linarith

lemma sigmoidTableIdxFactor_pos {s : ℝ} (hs : 0 < s) : 0 < sigmoidTableIdxFactor s := by
  have h1 := minSigmoidInput_neg hs
  have h2 := maxSigmoidInput_pos hs
  unfold sigmoidTableIdxFactor
  have : (0:ℝ) < (sigmoidBins : ℝ) := by norm_num [sigmoidBins]
  have : (0:ℝ) < maxSigmoidInput s - minSigmoidInput s := by linarith
  positivity

/-- Width of one table bin equals (domain width) / (bin count). -/
lemma one_div_factor {s : ℝ} (hs : 0 < s) :
    1 / sigmoidTableIdxFactor s = (maxSigmoidInput s - minSigmoidInput s) / sigmoidBins := by
  have h1 := minSigmoidInput_neg hs
  have h2 := maxSigmoidInput_pos hs
  have hw : maxSigmoidInput s - minSigmoidInput s ≠ 0 := by linarith
  have hb : (sigmoidBins : ℝ) ≠ 0 := by norm_num [sigmoidBins]
  rw [sigmoidTableIdxFactor, one_div_div]

/-- Tied scores used by the score-tie swap analysis. -/
def tieScore : ℕ → ℝ := fun _ => 1 / 2

/-- `probeVals` with the two documents' positions swapped: `[0, 1]`. -/
def swapVals : ℕ → ℝ := fun d => if d = 0 then 0 else 1

/-- A bias-power state with a non-uniform `j_biases_pow_` (`[1, 2]`), as the
unbiased update can produce after an iteration. -/
def tiltedCfg : LambdaCfg :=
  ⟨1, false, 2, true, 1, defaultLabelGain, fun _ => 1, fun r => if r = 0 then 1 else 2⟩

lemma insertDesc_perm (score : ℕ → ℝ) (a : ℕ) (l : List ℕ) :
    (insertDesc score a l).Perm (a :: l) := by
  induction l with
  | nil => simp [insertDesc]
  | cons b t ih =>
    by_cases h : score b > score a
    · simp only [insertDesc, if_pos h]
      exact (ih.cons b).trans (List.Perm.swap a b t)
    · simp [insertDesc, if_neg h]

lemma foldr_insertDesc_perm (score : ℕ → ℝ) (l : List ℕ) :
    (l.foldr (insertDesc score) []).Perm l := by
  induction l with
  | nil => simp
  | cons a t ih => exact (insertDesc_perm score a _).trans (ih.cons a)

lemma sortedIdx_perm (cnt : ℕ) (score : ℕ → ℝ) :
    (sortedIdx cnt score).Perm (List.range cnt) :=
  foldr_insertDesc_perm score (List.range cnt)

lemma sortedIdx_length (cnt : ℕ) (score : ℕ → ℝ) :
    (sortedIdx cnt score).length = cnt := by
  rw [(sortedIdx_perm cnt score).length_eq, List.length_range]

lemma sortedIdx_mem {cnt : ℕ} {score : ℕ → ℝ} {d : ℕ} :
    d ∈ sortedIdx cnt score ↔ d < cnt := by
  rw [(sortedIdx_perm cnt score).mem_iff, List.mem_range]

lemma sortedIdx_nodup (cnt : ℕ) (score : ℕ → ℝ) : (sortedIdx cnt score).Nodup :=
  ((sortedIdx_perm cnt score).nodup_iff).2 (List.nodup_range cnt)

lemma docAt_lt {cnt r : ℕ} {score : ℕ → ℝ} (h : r < cnt) : docAt cnt score r < cnt := by
  have hl : r < (sortedIdx cnt score).length := by rw [sortedIdx_length]; exact h
  have hg : docAt cnt score r = (sortedIdx cnt score).get ⟨r, hl⟩ := by
    simp [docAt, List.getD_eq_getElem?_getD, List.getElem?_eq_getElem hl]
  rw [hg]
  exact sortedIdx_mem.1 (List.get_mem _ _ hl)

lemma docAt_inj {cnt r1 r2 : ℕ} {score : ℕ → ℝ}
    (h1 : r1 < cnt) (h2 : r2 < cnt) (hne : r1 ≠ r2) :
    docAt cnt score r1 ≠ docAt cnt score r2 := by
  have hl1 : r1 < (sortedIdx cnt score).length := by rw [sortedIdx_length]; exact h1
  have hl2 : r2 < (sortedIdx cnt score).length := by rw [sortedIdx_length]; exact h2
  have hg1 : docAt cnt score r1 = (sortedIdx cnt score).get ⟨r1, hl1⟩ := by
    simp [docAt, List.getD_eq_getElem?_getD, List.getElem?_eq_getElem hl1]
  have hg2 : docAt cnt score r2 = (sortedIdx cnt score).get ⟨r2, hl2⟩ := by
    simp [docAt, List.getD_eq_getElem?_getD, List.getElem?_eq_getElem hl2]
  rw [hg1, hg2]
  intro h
  have := ((sortedIdx_nodup cnt score).get_inj_iff).1 h
  exact hne (by simpa using congrArg Fin.val this)

lemma pairList_bounds {cnt trunc : ℕ} :
    ∀ pr ∈ pairList cnt trunc, pr.1 < cnt - 1 ∧ pr.1 < trunc ∧ pr.1 < pr.2 ∧ pr.2 < cnt := by
  intro pr hpr
  unfold pairList at hpr
  simp only [List.mem_flatMap, List.mem_map, List.mem_range] at hpr
  obtain ⟨i, hi, j, hj, rfl⟩ := hpr
  rw [List.mem_range'_1] at hj
  rw [Nat.lt_min] at hi
  omega

lemma sortedIdx_zero (score : ℕ → ℝ) : sortedIdx 0 score = [] := rfl

/-- C10: the pairwise per-query computer reads `sorted_idx[0]` before any
count guard, so its accesses are in bounds only under the precondition
`cnt ≥ 1`; under that precondition `sorted_idx` has positive length equal to
`cnt`, every stored index (hence every `score`/`label`/`lambdas`/`hessians`
subscript the pair loop forms through `sorted_idx`) is `< cnt`, `worst_idx`
is `< cnt`, and every rank pair `(i, j)` the double loop visits satisfies
`i < cnt` and `j < cnt`; for `cnt = 0` the vector `sorted_idx` is empty, so
the unconditional `sorted_idx[0]` read lies outside the safe domain. -/
theorem c10_index_safety (cnt trunc : ℕ) (score : ℕ → ℝ) (h : 1 ≤ cnt) :
    0 < (sortedIdx cnt score).length ∧
    (sortedIdx cnt score).length = cnt ∧
    (∀ d ∈ sortedIdx cnt score, d < cnt) ∧
    worstIdx cnt score < cnt ∧
    (∀ pr ∈ pairList cnt trunc, pr.1 < cnt ∧ pr.2 < cnt ∧
      docAt cnt score pr.1 < cnt ∧ docAt cnt score pr.2 < cnt) ∧
    (∀ score' : ℕ → ℝ, sortedIdx 0 score' = []) := by
  refine ⟨?_, sortedIdx_length cnt score, ?_, ?_, ?_, fun score' => rfl⟩
  · rw [sortedIdx_length]; exact h
  · intro d hd; exact sortedIdx_mem.1 hd
  · unfold worstIdx; split_ifs <;> omega
  · intro pr hpr
    obtain ⟨h1, _, h3, h4⟩ := pairList_bounds pr hpr
    exact ⟨by omega, h4, docAt_lt (by omega), docAt_lt h4⟩

/-- Witness for C10 at the concrete query `cnt = 2`. -/
theorem c10_index_safety_witness :
    1 ≤ 2 ∧
    (0 < (sortedIdx 2 (fun _ => 0)).length ∧
    (sortedIdx 2 (fun _ => 0)).length = 2 ∧
    (∀ d ∈ sortedIdx 2 (fun _ => 0), d < 2) ∧
    worstIdx 2 (fun _ => 0) < 2 ∧
    (∀ pr ∈ pairList 2 3, pr.1 < 2 ∧ pr.2 < 2 ∧
      docAt 2 (fun _ => 0) pr.1 < 2 ∧ docAt 2 (fun _ => 0) pr.2 < 2) ∧
    (∀ score' : ℕ → ℝ, sortedIdx 0 score' = [])) :=
  ⟨by norm_num, c10_index_safety 2 3 (fun _ => 0) (by norm_num)⟩

lemma getSigmoid_clamp_low {s y : ℝ} (h : y ≤ minSigmoidInput s) :
    getSigmoid s y = sigmoidTable s 0 := by
  unfold getSigmoid
  rw [if_pos h]

lemma getSigmoid_clamp_high {s y : ℝ} (hs : 0 < s) (h : maxSigmoidInput s ≤ y) :
    getSigmoid s y = sigmoidTable s (sigmoidBins - 1) := by
  have h1 := minSigmoidInput_neg hs
  have h2 := maxSigmoidInput_pos hs
  unfold getSigmoid
  rw [if_neg (by linarith), if_pos h]

lemma getSigmoid_interior {s x : ℝ} (hlo : minSigmoidInput s < x) (hhi : x < maxSigmoidInput s) :
    getSigmoid s x =
      sigmoidTable s ⌊(x - minSigmoidInput s) * sigmoidTableIdxFactor s⌋₊ := by
  unfold getSigmoid
  rw [if_neg (by linarith), if_neg (by linarith)]

/-- The bin representative the interior lookup evaluates: it sits at most one
bin width below the query point. -/
lemma getSigmoid_quantized_input {s x : ℝ} (hs : 0 < s)
    (hlo : minSigmoidInput s < x) (hhi : x < maxSigmoidInput s) :
    ∃ q : ℝ, getSigmoid s x = directSigmoid s q ∧ q ≤ x ∧
      x - q < (maxSigmoidInput s - minSigmoidInput s) / sigmoidBins := by
  have hf := sigmoidTableIdxFactor_pos hs
  set n : ℕ := ⌊(x - minSigmoidInput s) * sigmoidTableIdxFactor s⌋₊ with hn
  refine ⟨(n : ℝ) / sigmoidTableIdxFactor s + minSigmoidInput s, ?_, ?_, ?_⟩
  · rw [getSigmoid_interior hlo hhi, sigmoidTable_eq_direct]
  · have h0 : 0 ≤ (x - minSigmoidInput s) * sigmoidTableIdxFactor s :=
      mul_nonneg (by linarith) hf.le
    have h1 : (n : ℝ) ≤ (x - minSigmoidInput s) * sigmoidTableIdxFactor s := Nat.floor_le h0
    have h2 : (n : ℝ) / sigmoidTableIdxFactor s ≤ x - minSigmoidInput s :=
      (div_le_iff hf).2 h1
    linarith
  · have h2 : (x - minSigmoidInput s) * sigmoidTableIdxFactor s < n + 1 :=
      Nat.lt_floor_add_one _
    have h3 : x - minSigmoidInput s < ((n : ℝ) + 1) / sigmoidTableIdxFactor s :=
      (lt_div_iff hf).2 h2
    have h4 : x - ((n : ℝ) / sigmoidTableIdxFactor s + minSigmoidInput s) <
        1 / sigmoidTableIdxFactor s := by
      have : ((n : ℝ) + 1) / sigmoidTableIdxFactor s =
          (n : ℝ) / sigmoidTableIdxFactor s + 1 / sigmoidTableIdxFactor s := by ring
      linarith [this ▸ h3]
    rw [← one_div_factor hs]
    linarith

lemma hasDerivAt_directSigmoid (s x : ℝ) :
    HasDerivAt (directSigmoid s)
      (-(Real.exp (x * s) * s) / (1 + Real.exp (x * s)) ^ 2) x := by
  have h1 : HasDerivAt (fun y : ℝ => Real.exp (y * s)) (Real.exp (x * s) * s) x := by
    simpa using ((hasDerivAt_id x).mul_const s).exp
  have h2 := (h1.const_add 1).inv (by positivity)
  have h3 : directSigmoid s = fun y : ℝ => (1 + Real.exp (y * s))⁻¹ := by
    funext y
    rw [directSigmoid, one_div]
  rw [h3]
  simpa using h2

lemma deriv_directSigmoid_bound {s : ℝ} (hs : 0 ≤ s) (x : ℝ) :
    ‖deriv (directSigmoid s) x‖ ≤ s / 4 := by
  rw [(hasDerivAt_directSigmoid s x).deriv, Real.norm_eq_abs]
  have hE := Real.exp_pos (x * s)
  set E := Real.exp (x * s)
  have habs : |-(E * s) / (1 + E) ^ 2| = E * s / (1 + E) ^ 2 := by
    rw [abs_div, abs_neg, abs_of_nonneg (mul_nonneg hE.le hs), abs_of_nonneg (by positivity)]
  rw [habs, div_le_iff (by positivity)]
  nlinarith [sq_nonneg (1 - E), hE, hs]

/-- The logistic `1 / (1 + exp(x * s))` is `(s/4)`-Lipschitz (mean value
bound via its derivative). -/
lemma directSigmoid_lipschitz {s : ℝ} (hs : 0 ≤ s) (a b : ℝ) :
    |directSigmoid s b - directSigmoid s a| ≤ s / 4 * |b - a| := by
  have h := Convex.norm_image_sub_le_of_norm_deriv_le
    (f := directSigmoid s) (C := s / 4) (s := Set.univ)
    (fun x _ => (hasDerivAt_directSigmoid s x).differentiableAt)
    (fun x _ => deriv_directSigmoid_bound hs x)
    convex_univ (Set.mem_univ a) (Set.mem_univ b)
  simpa [Real.norm_eq_abs] using h

/-- C3 (amended): `GetSigmoid` clamps exactly to the first table entry at or
below `min_sigmoid_input_` and to the last at or above `max_sigmoid_input_`;
strictly inside the domain it returns, with no interpolation, the stored
entry at bin `floor((x - min) * factor)`, which is the exact sigmoid of a
quantized input at most one bin width (domain width / bin count) below `x`;
the entry therefore differs from the direct evaluation by at most
`(steepness / 4) * (domain width / bin count)` — the `steepness / 4`
Lipschitz factor, not the plain `domain width / bin count` of the original
claim, which fails for steepness above 4. -/
theorem c3_sigmoid_lookup_amended (s x : ℝ) (hs : 0 < s) :
    (∀ y, y ≤ minSigmoidInput s → getSigmoid s y = sigmoidTable s 0) ∧
    (∀ y, maxSigmoidInput s ≤ y → getSigmoid s y = sigmoidTable s (sigmoidBins - 1)) ∧
    (minSigmoidInput s < x → x < maxSigmoidInput s →
      getSigmoid s x = sigmoidTable s ⌊(x - minSigmoidInput s) * sigmoidTableIdxFactor s⌋₊ ∧
      (∃ q : ℝ, getSigmoid s x = directSigmoid s q ∧ q ≤ x ∧
        x - q < (maxSigmoidInput s - minSigmoidInput s) / sigmoidBins) ∧
      |getSigmoid s x - directSigmoid s x| ≤
        s / 4 * ((maxSigmoidInput s - minSigmoidInput s) / sigmoidBins)) := by
  refine ⟨fun y hy => getSigmoid_clamp_low hy,
    fun y hy => getSigmoid_clamp_high hs hy, fun hlo hhi => ?_⟩
  refine ⟨getSigmoid_interior hlo hhi, getSigmoid_quantized_input hs hlo hhi, ?_⟩
  obtain ⟨q, hq, hqle, hqlt⟩ := getSigmoid_quantized_input hs hlo hhi
  rw [hq]
  have hl := directSigmoid_lipschitz hs.le x q
  have habs : |q - x| ≤ (maxSigmoidInput s - minSigmoidInput s) / sigmoidBins := by
    rw [abs_of_nonpos (by linarith)]
    linarith
  calc |directSigmoid s q - directSigmoid s x| ≤ s / 4 * |q - x| := hl
    _ ≤ s / 4 * ((maxSigmoidInput s - minSigmoidInput s) / sigmoidBins) := by
        have h4 : (0:ℝ) ≤ s / 4 := by linarith
        exact mul_le_mul_of_nonneg_left habs h4

/-- C3 counterexample: with steepness 8, at the in-domain input
`x = 999/167772160` the stored entry is exactly `1/2` while the direct
evaluation differs from it by more than the claimed bound
`(domain width) / (bin count)`: the table's output error is governed by the
Lipschitz factor `steepness / 4 = 2`, which exceeds 1. -/
theorem c3_sigmoid_lookup_counterexample :
    minSigmoidInput 8 < 999 / 167772160 ∧ (999 : ℝ) / 167772160 < maxSigmoidInput 8 ∧
    (maxSigmoidInput 8 - minSigmoidInput 8) / sigmoidBins <
      |getSigmoid 8 (999 / 167772160) - directSigmoid 8 (999 / 167772160)| := by
  have hmin : minSigmoidInput 8 = -25 / 8 := by norm_num [minSigmoidInput]
  have hmax : maxSigmoidInput 8 = 25 / 8 := by norm_num [maxSigmoidInput, minSigmoidInput]
  have hfac : sigmoidTableIdxFactor 8 = 4194304 / 25 := by
    norm_num [sigmoidTableIdxFactor, maxSigmoidInput, minSigmoidInput, sigmoidBins]
  have hlo : minSigmoidInput 8 < (999 : ℝ) / 167772160 := by rw [hmin]; norm_num
  have hhi : (999 : ℝ) / 167772160 < maxSigmoidInput 8 := by rw [hmax]; norm_num
  refine ⟨hlo, hhi, ?_⟩
  have hargfl : ((999 : ℝ) / 167772160 - minSigmoidInput 8) * sigmoidTableIdxFactor 8 =
      524288999 / 1000 := by
    rw [hmin, hfac]; norm_num
  have hfl : ⌊((999 : ℝ) / 167772160 - minSigmoidInput 8) * sigmoidTableIdxFactor 8⌋₊ =
      524288 := by
    rw [hargfl, Nat.floor_eq_iff (by norm_num)]
    norm_num
  have hget : getSigmoid 8 (999 / 167772160) = 1 / 2 := by
    rw [getSigmoid_interior hlo hhi, hfl, sigmoidTable]
    have harg : (((524288 : ℕ) : ℝ) / sigmoidTableIdxFactor 8 + minSigmoidInput 8) * 8 = 0 := by
      rw [hmin, hfac]; norm_num
    rw [harg, Real.exp_zero]
    norm_num
  have hdir : directSigmoid 8 (999 / 167772160) =
      1 / (1 + Real.exp (999 / 20971520)) := by
    rw [directSigmoid]
    norm_num
  rw [hget, hdir, hmax, hmin]
  have hδ : (0:ℝ) < 999 / 20971520 := by norm_num
  have hE1 := Real.add_one_le_exp ((999 : ℝ) / 20971520)
  have hEpos := Real.exp_pos ((999 : ℝ) / 20971520)
  have hlt : 1 / (1 + Real.exp (999 / 20971520)) ≤ 1 / (2 + (999 : ℝ) / 20971520) :=
    one_div_le_one_div_of_le (by norm_num) (by linarith)
  have hhalf : 1 / (1 + Real.exp (999 / 20971520)) < 1 / 2 :=
    lt_of_le_of_lt hlt (by norm_num)
  rw [abs_of_pos (by linarith)]
  have hkey : (25 / 8 - -(25 / 8) : ℝ) / sigmoidBins < 1 / 2 - 1 / (2 + (999 : ℝ) / 20971520) := by
    norm_num [sigmoidBins]
  linarith

/-- Witness for the amended C3 at steepness 1 and input 0. -/
theorem c3_sigmoid_lookup_amended_witness :
    (0 : ℝ) < 1 ∧
    ((∀ y, y ≤ minSigmoidInput 1 → getSigmoid 1 y = sigmoidTable 1 0) ∧
    (∀ y, maxSigmoidInput 1 ≤ y → getSigmoid 1 y = sigmoidTable 1 (sigmoidBins - 1)) ∧
    (minSigmoidInput 1 < 0 → (0:ℝ) < maxSigmoidInput 1 →
      getSigmoid 1 0 = sigmoidTable 1 ⌊(0 - minSigmoidInput 1) * sigmoidTableIdxFactor 1⌋₊ ∧
      (∃ q : ℝ, getSigmoid 1 0 = directSigmoid 1 q ∧ q ≤ 0 ∧
        0 - q < (maxSigmoidInput 1 - minSigmoidInput 1) / sigmoidBins) ∧
      |getSigmoid 1 0 - directSigmoid 1 0| ≤
        1 / 4 * ((maxSigmoidInput 1 - minSigmoidInput 1) / sigmoidBins))) :=
  ⟨by norm_num, c3_sigmoid_lookup_amended 1 0 (by norm_num)⟩

lemma foldl_invariant {α : Type} {P : QState → Prop} (f : QState → α → QState)
    (l : List α) (s0 : QState) (h0 : P s0)
    (hstep : ∀ s pr, pr ∈ l → P s → P (f s pr)) : P (l.foldl f s0) := by
  induction l generalizing s0 with
  | nil => exact h0
  | cons a t ih =>
    exact ih _ (hstep s0 a (by simp) h0)
      (fun s pr hpr hs => hstep s pr (by simp [hpr]) hs)

lemma pairList_nil {cnt trunc : ℕ} (h : cnt ≤ 1) : pairList cnt trunc = [] := by
  unfold pairList
  have h1 : cnt - 1 = 0 := by omega
  rw [h1]
  simp

lemma accState_of_small {cfg : LambdaCfg} {cnt : ℕ} {label score L0 H0 iB0 jB0 : ℕ → ℝ}
    (h : cnt ≤ 1) :
    accState cfg cnt label score L0 H0 iB0 jB0 = initQState cnt L0 H0 iB0 jB0 := by
  unfold accState
  rw [pairList_nil h]
  rfl

/-- C6: for `cnt <= 1` both per-query computers zero this query's whole
output slice — the pairwise loop visits no pair (so the zero-initialized
slice survives, and `sum_lambdas = 0` blocks the normalization rescale), and
the listwise computer's explicit guard writes zeroes. -/
theorem c6_small_queries (cfg : LambdaCfg) (cnt : ℕ)
    (label score rand L0 H0 iB0 jB0 : ℕ → ℝ) (h : cnt ≤ 1) :
    (∀ d < cnt, (getGradientsForOneQuery cfg cnt label score L0 H0 iB0 jB0).lambdas d = 0 ∧
      (getGradientsForOneQuery cfg cnt label score L0 H0 iB0 jB0).hessians d = 0) ∧
    (∀ d < cnt, rankXendcgLambdas cnt label score rand L0 d = 0 ∧
      rankXendcgHessians cnt label score rand H0 d = 0) := by
  constructor
  · intro d hd
    unfold getGradientsForOneQuery
    rw [accState_of_small h]
    have hsum : (initQState cnt L0 H0 iB0 jB0).sumLambdas = 0 := rfl
    rw [if_neg (by rw [hsum]; exact fun hc => lt_irrefl 0 hc.2)]
    simp [initQState, hd]
  · intro d hd
    unfold rankXendcgLambdas rankXendcgHessians
    rw [if_pos h, if_pos h]
    simp [hd]

/-- Witness for C6 at a concrete one-document query. -/
theorem c6_small_queries_witness :
    1 ≤ 1 ∧
    ((∀ d < 1, (getGradientsForOneQuery ⟨1, false, 3, false, 1, defaultLabelGain,
        fun _ => 1, fun _ => 1⟩ 1 (fun _ => 0) (fun _ => 0) (fun _ => 0) (fun _ => 0)
        (fun _ => 0) (fun _ => 0)).lambdas d = 0 ∧
      (getGradientsForOneQuery ⟨1, false, 3, false, 1, defaultLabelGain,
        fun _ => 1, fun _ => 1⟩ 1 (fun _ => 0) (fun _ => 0) (fun _ => 0) (fun _ => 0)
        (fun _ => 0) (fun _ => 0)).hessians d = 0) ∧
    (∀ d < 1, rankXendcgLambdas 1 (fun _ => 0) (fun _ => 0) (fun _ => 0) (fun _ => 0) d = 0 ∧
      rankXendcgHessians 1 (fun _ => 0) (fun _ => 0) (fun _ => 0) (fun _ => 0) d = 0)) :=
  ⟨le_refl 1, c6_small_queries _ 1 _ _ _ _ _ _ _ (le_refl 1)⟩

lemma pairHighLow_cases (label : ℕ → ℝ) (u : ℕ → ℕ) (i j : ℕ) :
    pairHighLow label u i j = (i, j) ∨ pairHighLow label u i j = (j, i) := by
  unfold pairHighLow
  split_ifs <;> simp

lemma stepPair_sentinel {cfg : LambdaCfg} {label score : ℕ → ℝ} {u : ℕ → ℕ}
    {best worst : ℝ} {dd : ℕ} (hdd : score dd = kMinScore)
    (s : QState) (pr : ℕ × ℕ)
    (h : s.lambdas dd = 0 ∧ s.hessians dd = 0) :
    (stepPair cfg label score u best worst s pr).lambdas dd = 0 ∧
    (stepPair cfg label score u best worst s pr).hessians dd = 0 := by
  unfold stepPair
  by_cases h1 : score (u pr.1) = kMinScore
  · rw [if_pos h1]; exact h
  rw [if_neg h1]
  by_cases h2 : score (u pr.2) = kMinScore
  · rw [if_pos h2]; exact h
  rw [if_neg h2]
  by_cases h3 : label (u pr.1) = label (u pr.2)
  · rw [if_pos h3]; exact h
  rw [if_neg h3]
  have hne1 : dd ≠ u pr.1 := fun he => h1 (by rw [← he]; exact hdd)
  have hne2 : dd ≠ u pr.2 := fun he => h2 (by rw [← he]; exact hdd)
  have hneh : dd ≠ u ((pairHighLow label u pr.1 pr.2).1) := by
    rcases pairHighLow_cases label u pr.1 pr.2 with hc | hc <;> rw [hc] <;> assumption
  have hnel : dd ≠ u ((pairHighLow label u pr.1 pr.2).2) := by
    rcases pairHighLow_cases label u pr.1 pr.2 with hc | hc <;> rw [hc] <;> assumption
  refine ⟨?_, ?_⟩
  · simp only [Function.update_noteq hneh, Function.update_noteq hnel]
    exact h.1
  · simp only [Function.update_noteq hneh, Function.update_noteq hnel]
    exact h.2

/-- C7: a document whose score equals the sentinel `kMinScore` receives
exactly zero lambda and zero hessian from the pairwise computer, at any
position in the sort order: every pair with it at either endpoint is
skipped, and the normalization rescale preserves the zero. -/
theorem c7_sentinel_zero (cfg : LambdaCfg) (cnt : ℕ)
    (label score L0 H0 iB0 jB0 : ℕ → ℝ) (d : ℕ) (hd : d < cnt)
    (hsent : score d = kMinScore) :
    (getGradientsForOneQuery cfg cnt label score L0 H0 iB0 jB0).lambdas d = 0 ∧
    (getGradientsForOneQuery cfg cnt label score L0 H0 iB0 jB0).hessians d = 0 := by
  have hacc : (accState cfg cnt label score L0 H0 iB0 jB0).lambdas d = 0 ∧
      (accState cfg cnt label score L0 H0 iB0 jB0).hessians d = 0 := by
    unfold accState
    exact foldl_invariant _ _ _ (by simp [initQState, hd])
      (fun s pr _ hs => stepPair_sentinel hsent s pr hs)
  unfold getGradientsForOneQuery
  split_ifs
  · exact ⟨by simp [normalizeState, hacc.1], by simp [normalizeState, hacc.2]⟩
  · exact hacc

/-- Witness for C7: a three-document query whose document 1 carries the
sentinel score. -/
theorem c7_sentinel_zero_witness :
    1 < 3 ∧ (fun d => if d = 1 then kMinScore else (1:ℝ)) 1 = kMinScore ∧
    ((getGradientsForOneQuery ⟨1, false, 3, false, 1, defaultLabelGain, fun _ => 1, fun _ => 1⟩
        3 (fun d => (d:ℝ)) (fun d => if d = 1 then kMinScore else (1:ℝ))
        (fun _ => 0) (fun _ => 0) (fun _ => 0) (fun _ => 0)).lambdas 1 = 0 ∧
      (getGradientsForOneQuery ⟨1, false, 3, false, 1, defaultLabelGain, fun _ => 1, fun _ => 1⟩
        3 (fun d => (d:ℝ)) (fun d => if d = 1 then kMinScore else (1:ℝ))
        (fun _ => 0) (fun _ => 0) (fun _ => 0) (fun _ => 0)).hessians 1 = 0) :=
  ⟨by norm_num, by norm_num,
    c7_sentinel_zero _ 3 _ _ _ _ _ _ 1 (by norm_num) (by norm_num)⟩

/-- C5: the final per-query outputs relate to the accumulated (pre-norm)
values exactly as the trailing loop dictates — when `norm_` is set and the
accumulated `sum_lambdas` is strictly positive every entry is multiplied by
`log2(1 + sum_lambdas) / sum_lambdas`, and otherwise (normalization
disabled, or `sum_lambdas = 0`, which falls in this branch) the entries are
left exactly as accumulated. -/
theorem c5_normalization (cfg : LambdaCfg) (cnt : ℕ)
    (label score L0 H0 iB0 jB0 : ℕ → ℝ) (d : ℕ) (hd : d < cnt) :
    ((cfg.norm = true ∧ 0 < (accState cfg cnt label score L0 H0 iB0 jB0).sumLambdas) →
      (getGradientsForOneQuery cfg cnt label score L0 H0 iB0 jB0).lambdas d =
        (accState cfg cnt label score L0 H0 iB0 jB0).lambdas d *
          (Real.logb 2 (1 + (accState cfg cnt label score L0 H0 iB0 jB0).sumLambdas) /
            (accState cfg cnt label score L0 H0 iB0 jB0).sumLambdas) ∧
      (getGradientsForOneQuery cfg cnt label score L0 H0 iB0 jB0).hessians d =
        (accState cfg cnt label score L0 H0 iB0 jB0).hessians d *
          (Real.logb 2 (1 + (accState cfg cnt label score L0 H0 iB0 jB0).sumLambdas) /
            (accState cfg cnt label score L0 H0 iB0 jB0).sumLambdas)) ∧
    (¬(cfg.norm = true ∧ 0 < (accState cfg cnt label score L0 H0 iB0 jB0).sumLambdas) →
      (getGradientsForOneQuery cfg cnt label score L0 H0 iB0 jB0).lambdas d =
        (accState cfg cnt label score L0 H0 iB0 jB0).lambdas d ∧
      (getGradientsForOneQuery cfg cnt label score L0 H0 iB0 jB0).hessians d =
        (accState cfg cnt label score L0 H0 iB0 jB0).hessians d) := by
  constructor
  · intro hcond
    unfold getGradientsForOneQuery
    rw [if_pos hcond]
    exact ⟨by simp [normalizeState, hd], by simp [normalizeState, hd]⟩
  · intro hcond
    unfold getGradientsForOneQuery
    rw [if_neg hcond]
    exact ⟨rfl, rfl⟩

/-- Witness for C5 at a concrete two-document query. -/
theorem c5_normalization_witness :
    0 < 2 ∧
    (((⟨1, true, 3, false, 1, defaultLabelGain, fun _ => 1, fun _ => 1⟩ : LambdaCfg).norm = true ∧
      0 < (accState ⟨1, true, 3, false, 1, defaultLabelGain, fun _ => 1, fun _ => 1⟩ 2
        (fun d => (d:ℝ)) (fun _ => 0) (fun _ => 0) (fun _ => 0) (fun _ => 0) (fun _ => 0)).sumLambdas) →
      (getGradientsForOneQuery ⟨1, true, 3, false, 1, defaultLabelGain, fun _ => 1, fun _ => 1⟩ 2
        (fun d => (d:ℝ)) (fun _ => 0) (fun _ => 0) (fun _ => 0) (fun _ => 0) (fun _ => 0)).lambdas 0 =
        (accState ⟨1, true, 3, false, 1, defaultLabelGain, fun _ => 1, fun _ => 1⟩ 2
          (fun d => (d:ℝ)) (fun _ => 0) (fun _ => 0) (fun _ => 0) (fun _ => 0) (fun _ => 0)).lambdas 0 *
          (Real.logb 2 (1 + (accState ⟨1, true, 3, false, 1, defaultLabelGain, fun _ => 1, fun _ => 1⟩ 2
            (fun d => (d:ℝ)) (fun _ => 0) (fun _ => 0) (fun _ => 0) (fun _ => 0) (fun _ => 0)).sumLambdas) /
            (accState ⟨1, true, 3, false, 1, defaultLabelGain, fun _ => 1, fun _ => 1⟩ 2
              (fun d => (d:ℝ)) (fun _ => 0) (fun _ => 0) (fun _ => 0) (fun _ => 0) (fun _ => 0)).sumLambdas) ∧
      (getGradientsForOneQuery ⟨1, true, 3, false, 1, defaultLabelGain, fun _ => 1, fun _ => 1⟩ 2
        (fun d => (d:ℝ)) (fun _ => 0) (fun _ => 0) (fun _ => 0) (fun _ => 0) (fun _ => 0)).hessians 0 =
        (accState ⟨1, true, 3, false, 1, defaultLabelGain, fun _ => 1, fun _ => 1⟩ 2
          (fun d => (d:ℝ)) (fun _ => 0) (fun _ => 0) (fun _ => 0) (fun _ => 0) (fun _ => 0)).hessians 0 *
          (Real.logb 2 (1 + (accState ⟨1, true, 3, false, 1, defaultLabelGain, fun _ => 1, fun _ => 1⟩ 2
            (fun d => (d:ℝ)) (fun _ => 0) (fun _ => 0) (fun _ => 0) (fun _ => 0) (fun _ => 0)).sumLambdas) /
            (accState ⟨1, true, 3, false, 1, defaultLabelGain, fun _ => 1, fun _ => 1⟩ 2
              (fun d => (d:ℝ)) (fun _ => 0) (fun _ => 0) (fun _ => 0) (fun _ => 0) (fun _ => 0)).sumLambdas)) :=
  ⟨by norm_num,
    (c5_normalization ⟨1, true, 3, false, 1, defaultLabelGain, fun _ => 1, fun _ => 1⟩ 2
      (fun d => (d:ℝ)) (fun _ => 0) (fun _ => 0) (fun _ => 0) (fun _ => 0) (fun _ => 0)
      0 (by norm_num)).1⟩

lemma truncInt_mono : Monotone truncInt := by
  intro a b hab
  unfold truncInt
  split_ifs with ha hb hb
  · exact Int.ceil_le_ceil hab
  · have hc : ⌈a⌉ ≤ 0 := by simpa using Int.ceil_le_ceil ha.le
    exact le_trans hc (Int.floor_nonneg.2 (not_lt.1 hb))
  · linarith [not_lt.1 ha]
  · exact Int.floor_le_floor hab

lemma defaultLabelGain_mono : Monotone defaultLabelGain := by
  intro a b hab
  unfold defaultLabelGain
  have := zpow_le_zpow_right₀ (a := (2:ℝ)) (by norm_num) hab
  linarith

lemma pairHighLow_label_le (label : ℕ → ℝ) (u : ℕ → ℕ) (i j : ℕ) :
    label (u ((pairHighLow label u i j).2)) ≤ label (u ((pairHighLow label u i j).1)) := by
  unfold pairHighLow
  split_ifs with hc
  · simpa using hc.le
  · simpa using not_lt.1 hc

lemma pairDeltaNdcg_nonneg (cfg : LambdaCfg) (label score : ℕ → ℝ) (u : ℕ → ℕ)
    (best worst : ℝ) (i j : ℕ) (hinv : 0 ≤ cfg.invMaxDcg)
    (hmono : Monotone cfg.labelGain) :
    0 ≤ pairDeltaNdcg cfg label score u best worst i j := by
  unfold pairDeltaNdcg
  have hgap : 0 ≤ cfg.labelGain (truncInt (label (u ((pairHighLow label u i j).1)))) -
      cfg.labelGain (truncInt (label (u ((pairHighLow label u i j).2)))) :=
    sub_nonneg.2 (hmono (truncInt_mono (pairHighLow_label_le label u i j)))
  have hd : 0 ≤ (cfg.labelGain (truncInt (label (u ((pairHighLow label u i j).1)))) -
      cfg.labelGain (truncInt (label (u ((pairHighLow label u i j).2))))) *
      |discount ((pairHighLow label u i j).1) - discount ((pairHighLow label u i j).2)| *
      cfg.invMaxDcg :=
    mul_nonneg (mul_nonneg hgap (abs_nonneg _)) hinv
  dsimp only
  split_ifs
  · exact div_nonneg hd (by positivity)
  · exact hd

lemma pairPHessian_nonneg (cfg : LambdaCfg) (label score : ℕ → ℝ) (u : ℕ → ℕ)
    (best worst : ℝ) (i j : ℕ) (hinv : 0 ≤ cfg.invMaxDcg)
    (hmono : Monotone cfg.labelGain)
    (hip : ∀ r, 0 < cfg.ipow r) (hjp : ∀ r, 0 < cfg.jpow r) :
    0 ≤ pairPHessian cfg label score u best worst i j := by
  unfold pairPHessian
  have hp1 := getSigmoid_pos cfg.sigmoid
    (score (u ((pairHighLow label u i j).1)) - score (u ((pairHighLow label u i j).2)))
  have hp2 := getSigmoid_lt_one cfg.sigmoid
    (score (u ((pairHighLow label u i j).1)) - score (u ((pairHighLow label u i j).2)))
  have hd := pairDeltaNdcg_nonneg cfg label score u best worst i j hinv hmono
  dsimp only
  refine mul_nonneg (mul_nonneg hp1.le (by linarith)) ?_
  exact div_nonneg (div_nonneg (mul_nonneg (mul_self_nonneg _) hd)
    (hip _).le) (hjp _).le

lemma sum_double_update (f : ℕ → ℝ) {cnt hi lo : ℕ} (v : ℝ) (hne : hi ≠ lo)
    (hhi : hi < cnt) (hlo : lo < cnt) :
    ∑ d ∈ Finset.range cnt,
      (Function.update (Function.update f lo (f lo - v)) hi
        ((Function.update f lo (f lo - v)) hi + v)) d
      = ∑ d ∈ Finset.range cnt, f d := by
  have hmem_hi : hi ∈ Finset.range cnt := Finset.mem_range.2 hhi
  have hmem_lo : lo ∈ Finset.range cnt \ {hi} :=
    Finset.mem_sdiff.2 ⟨Finset.mem_range.2 hlo, Finset.not_mem_singleton.2 (Ne.symm hne)⟩
  rw [Finset.sum_update_of_mem hmem_hi, Finset.sum_update_of_mem hmem_lo]
  rw [Finset.sum_eq_sum_diff_singleton_add hmem_hi f,
    Finset.sum_eq_sum_diff_singleton_add hmem_lo f]
  rw [Function.update_noteq hne]
  ring

lemma accState_sum_lambdas (cfg : LambdaCfg) (cnt : ℕ)
    (label score L0 H0 iB0 jB0 : ℕ → ℝ) :
    ∑ d ∈ Finset.range cnt, (accState cfg cnt label score L0 H0 iB0 jB0).lambdas d = 0 := by
  unfold accState
  refine foldl_invariant (P := fun s => ∑ d ∈ Finset.range cnt, s.lambdas d = 0) _ _ _ ?_ ?_
  · exact Finset.sum_eq_zero (fun d hd => by
      simp [initQState, Finset.mem_range.1 hd])
  · intro s pr hpr hs
    obtain ⟨hb1, hb2, hb3, hb4⟩ := pairList_bounds pr hpr
    unfold stepPair
    by_cases h1 : score (docAt cnt score pr.1) = kMinScore
    · rw [if_pos h1]; exact hs
    rw [if_neg h1]
    by_cases h2 : score (docAt cnt score pr.2) = kMinScore
    · rw [if_pos h2]; exact hs
    rw [if_neg h2]
    by_cases h3 : label (docAt cnt score pr.1) = label (docAt cnt score pr.2)
    · rw [if_pos h3]; exact hs
    rw [if_neg h3]
    have hr1 : (pairHighLow label (docAt cnt score) pr.1 pr.2).1 < cnt ∧
        (pairHighLow label (docAt cnt score) pr.1 pr.2).2 < cnt ∧
        (pairHighLow label (docAt cnt score) pr.1 pr.2).1 ≠
          (pairHighLow label (docAt cnt score) pr.1 pr.2).2 := by
      rcases pairHighLow_cases label (docAt cnt score) pr.1 pr.2 with hc | hc <;>
        rw [hc] <;> exact ⟨by omega, by omega, by omega⟩
    have hne : docAt cnt score ((pairHighLow label (docAt cnt score) pr.1 pr.2).1) ≠
        docAt cnt score ((pairHighLow label (docAt cnt score) pr.1 pr.2).2) :=
      docAt_inj hr1.1 hr1.2.1 hr1.2.2
    dsimp only
    rw [sum_double_update s.lambdas _ hne (docAt_lt hr1.1) (docAt_lt hr1.2.1)]
    exact hs

lemma accState_hessians_nonneg (cfg : LambdaCfg) (cnt : ℕ)
    (label score L0 H0 iB0 jB0 : ℕ → ℝ) (hinv : 0 ≤ cfg.invMaxDcg)
    (hmono : Monotone cfg.labelGain)
    (hip : ∀ r, 0 < cfg.ipow r) (hjp : ∀ r, 0 < cfg.jpow r) :
    ∀ d < cnt, 0 ≤ (accState cfg cnt label score L0 H0 iB0 jB0).hessians d := by
  unfold accState
  refine foldl_invariant (P := fun s => ∀ d < cnt, 0 ≤ s.hessians d) _ _ _ ?_ ?_
  · intro d hd
    simp [initQState, hd]
  · intro s pr _ hs
    unfold stepPair
    by_cases h1 : score (docAt cnt score pr.1) = kMinScore
    · rw [if_pos h1]; exact hs
    rw [if_neg h1]
    by_cases h2 : score (docAt cnt score pr.2) = kMinScore
    · rw [if_pos h2]; exact hs
    rw [if_neg h2]
    by_cases h3 : label (docAt cnt score pr.1) = label (docAt cnt score pr.2)
    · rw [if_pos h3]; exact hs
    rw [if_neg h3]
    have hph := pairPHessian_nonneg cfg label score (docAt cnt score)
      (score (docAt cnt score 0)) (score (docAt cnt score (worstIdx cnt score)))
      pr.1 pr.2 hinv hmono hip hjp
    intro d hd
    dsimp only
    rcases eq_or_ne d (docAt cnt score ((pairHighLow label (docAt cnt score) pr.1 pr.2).1))
      with hdh | hdh
    · rw [hdh, Function.update_same]
      rcases eq_or_ne (docAt cnt score ((pairHighLow label (docAt cnt score) pr.1 pr.2).1))
        (docAt cnt score ((pairHighLow label (docAt cnt score) pr.1 pr.2).2)) with he | he
      · rw [he, Function.update_same]
        have hdl : docAt cnt score ((pairHighLow label (docAt cnt score) pr.1 pr.2).2) < cnt := by
          rw [← he, ← hdh]; exact hd
        have hsl := hs _ hdl
        linarith
      · rw [Function.update_noteq he]
        have := hs _ (hdh ▸ hd)
        linarith
    · rw [Function.update_noteq hdh]
      rcases eq_or_ne d (docAt cnt score ((pairHighLow label (docAt cnt score) pr.1 pr.2).2))
        with hdl | hdl
      · rw [hdl, Function.update_same]
        have := hs _ (hdl ▸ hd)
        linarith
      · rw [Function.update_noteq hdl]
        exact hs d hd

/-- C8: the end-to-end scenario — one query of 3 documents with labels
`[2, 1, 0]` and all scores `0.5`, steepness 1, truncation 3, normalization
off, unbiased off (so both bias-power arrays are the seeded all-ones), the
default `2^l - 1` label gains and any nonnegative cached inverse max DCG —
yields lambdas summing to exactly zero (each pair contributes
equal-and-opposite lambda to its endpoints) and a nonnegative hessian for
every document. -/
theorem c8_tied_scores_scenario (v : ℝ) (hv : 0 ≤ v) :
    (∑ d ∈ Finset.range 3,
      (getGradientsForOneQuery ⟨1, false, 3, false, v, defaultLabelGain, fun _ => 1, fun _ => 1⟩
        3 (fun d => if d = 0 then 2 else if d = 1 then 1 else 0) (fun _ => (1:ℝ)/2)
        (fun _ => 0) (fun _ => 0) (fun _ => 0) (fun _ => 0)).lambdas d) = 0 ∧
    ∀ d < 3, 0 ≤
      (getGradientsForOneQuery ⟨1, false, 3, false, v, defaultLabelGain, fun _ => 1, fun _ => 1⟩
        3 (fun d => if d = 0 then 2 else if d = 1 then 1 else 0) (fun _ => (1:ℝ)/2)
        (fun _ => 0) (fun _ => 0) (fun _ => 0) (fun _ => 0)).hessians d := by
  have hng : getGradientsForOneQuery
      ⟨1, false, 3, false, v, defaultLabelGain, fun _ => 1, fun _ => 1⟩
      3 (fun d => if d = 0 then 2 else if d = 1 then 1 else 0) (fun _ => (1:ℝ)/2)
      (fun _ => 0) (fun _ => 0) (fun _ => 0) (fun _ => 0) =
      accState ⟨1, false, 3, false, v, defaultLabelGain, fun _ => 1, fun _ => 1⟩
      3 (fun d => if d = 0 then 2 else if d = 1 then 1 else 0) (fun _ => (1:ℝ)/2)
      (fun _ => 0) (fun _ => 0) (fun _ => 0) (fun _ => 0) := by
    unfold getGradientsForOneQuery
    rw [if_neg (by simp)]
  rw [hng]
  refine ⟨accState_sum_lambdas _ _ _ _ _ _ _ _, ?_⟩
  exact accState_hessians_nonneg _ _ _ _ _ _ _ _ hv defaultLabelGain_mono
    (fun r => one_pos) (fun r => one_pos)

/-- Witness for C8 with inverse max DCG 1. -/
theorem c8_tied_scores_scenario_witness :
    (0:ℝ) ≤ 1 ∧
    ((∑ d ∈ Finset.range 3,
      (getGradientsForOneQuery ⟨1, false, 3, false, 1, defaultLabelGain, fun _ => 1, fun _ => 1⟩
        3 (fun d => if d = 0 then 2 else if d = 1 then 1 else 0) (fun _ => (1:ℝ)/2)
        (fun _ => 0) (fun _ => 0) (fun _ => 0) (fun _ => 0)).lambdas d) = 0 ∧
    ∀ d < 3, 0 ≤
      (getGradientsForOneQuery ⟨1, false, 3, false, 1, defaultLabelGain, fun _ => 1, fun _ => 1⟩
        3 (fun d => if d = 0 then 2 else if d = 1 then 1 else 0) (fun _ => (1:ℝ)/2)
        (fun _ => 0) (fun _ => 0) (fun _ => 0) (fun _ => 0)).hessians d) :=
  ⟨by norm_num, c8_tied_scores_scenario 1 (by norm_num)⟩

/-- C9: initialization fails fatally in exactly the two configuration-error
cases — `RankingObjective::Init` raises `Log::Fatal` iff the query-boundary
metadata is null, and the `LambdarankNDCG` constructor raises `Log::Fatal`
iff the sigmoid steepness is zero or negative; in all other cases both
complete.  (The gradient-computation path of this engine contains no fatal
call, which the model reflects by making the gradient computers total
functions; the label check at `Init` lives in the external `DCGCalculator`,
outside this engine.) -/
theorem c9_fatal_configuration :
    (∀ s : ℝ, (lambdarankConstruct s).isOk = true ↔ 0 < s) ∧
    (∀ qb : Option (ℕ → ℕ), (rankingObjectiveInit qb).isOk = true ↔ qb.isSome = true) := by
  constructor
  · intro s
    unfold lambdarankConstruct
    split_ifs with h
    · constructor
      · intro hc
        exact absurd hc (by simp [Except.isOk, Except.toBool])
      · intro hc
        linarith
    · constructor
      · intro _
        linarith [lt_of_not_le h]
      · intro _
        simp [Except.isOk, Except.toBool]
  · intro qb
    cases qb <;> simp [rankingObjectiveInit, Except.isOk, Except.toBool]

lemma one_lt_logb_two_three : 1 < Real.logb 2 3 := by
  have h := Real.logb_lt_logb (b := 2) (x := 2) (y := 3) (by norm_num) (by norm_num) (by norm_num)
  rwa [Real.logb_self_eq_one (by norm_num)] at h

lemma kMinScore_lt_neg_one : kMinScore < -1 := by
  unfold kMinScore
  have h : (1:ℝ) < 2 ^ 1024 := one_lt_pow (by norm_num) (by norm_num)
  linarith

lemma ne_kMinScore {x : ℝ} (hx : -1 ≤ x) : x ≠ kMinScore := by
  intro he
  have := kMinScore_lt_neg_one
  rw [he] at hx
  linarith

lemma sortedIdx_two {score : ℕ → ℝ} (hs : ¬ score 1 > score 0) :
    sortedIdx 2 score = [0, 1] := by
  unfold sortedIdx
  rw [show List.range 2 = [0, 1] from rfl]
  show insertDesc score 0 (insertDesc score 1 []) = [0, 1]
  rw [show insertDesc score 1 [] = [1] from rfl]
  unfold insertDesc
  rw [if_neg hs]

lemma pairList_two {t : ℕ} (ht : 1 ≤ t) : pairList 2 t = [(0, 1)] := by
  unfold pairList
  rw [show (2:ℕ) - 1 = 1 from rfl, Nat.min_eq_left ht]
  rfl

lemma worstIdx_two {score : ℕ → ℝ} (h2 : score (docAt 2 score 1) ≠ kMinScore) :
    worstIdx 2 score = 1 := by
  unfold worstIdx
  rw [if_neg]
  intro hc
  exact h2 hc.2

/-- C2 (amended): after `UpdatePositionBiasesAndGradients`, provided the
accumulated rank-0 cost is nonzero (some pair contributed during the
iteration), `i_biases_pow_[0]` and `j_biases_pow_[0]` are exactly `1.0`
(`pow(c/c, eta) = 1`), and — unconditionally — the cost accumulators and all
per-thread buffers are reset to zero for the next iteration. -/
theorem c2_update_anchor_amended (trunc numThreads : ℕ) (eta : ℝ) (st : BiasState)
    (htr : 0 < trunc) :
    (accICosts numThreads st 0 ≠ 0 →
      (updatePositionBiases trunc numThreads eta st).ipow 0 = 1) ∧
    (accJCosts numThreads st 0 ≠ 0 →
      (updatePositionBiases trunc numThreads eta st).jpow 0 = 1) ∧
    (∀ r < trunc, (updatePositionBiases trunc numThreads eta st).iCosts r = 0 ∧
      (updatePositionBiases trunc numThreads eta st).jCosts r = 0) ∧
    (∀ t < numThreads, ∀ r < trunc,
      (updatePositionBiases trunc numThreads eta st).iBufs t r = 0 ∧
      (updatePositionBiases trunc numThreads eta st).jBufs t r = 0) := by
  unfold updatePositionBiases
  refine ⟨fun hI => ?_, fun hJ => ?_, fun r hr => ⟨by simp [hr], by simp [hr]⟩,
    fun t ht r hr => ⟨by simp [ht, hr], by simp [ht, hr]⟩⟩
  · dsimp only
    rw [if_pos htr, div_self hI, Real.one_rpow]
  · dsimp only
    rw [if_pos htr, div_self hJ, Real.one_rpow]

/-- Witness for the amended C2 on a one-rank, one-thread state with unit
accumulated costs. -/
theorem c2_update_anchor_amended_witness :
    0 < 1 ∧
    accICosts 1 ⟨fun _ => 1, fun _ => 1, fun _ => 1, fun _ => 1, fun _ _ => 0, fun _ _ => 0⟩ 0 ≠ 0 ∧
    accJCosts 1 ⟨fun _ => 1, fun _ => 1, fun _ => 1, fun _ => 1, fun _ _ => 0, fun _ _ => 0⟩ 0 ≠ 0 ∧
    ((accICosts 1 ⟨fun _ => 1, fun _ => 1, fun _ => 1, fun _ => 1,
        fun _ _ => 0, fun _ _ => 0⟩ 0 ≠ 0 →
      (updatePositionBiases 1 1 1
        ⟨fun _ => 1, fun _ => 1, fun _ => 1, fun _ => 1, fun _ _ => 0, fun _ _ => 0⟩).ipow 0 = 1) ∧
      (accJCosts 1 ⟨fun _ => 1, fun _ => 1, fun _ => 1, fun _ => 1,
          fun _ _ => 0, fun _ _ => 0⟩ 0 ≠ 0 →
        (updatePositionBiases 1 1 1
          ⟨fun _ => 1, fun _ => 1, fun _ => 1, fun _ => 1, fun _ _ => 0, fun _ _ => 0⟩).jpow 0 = 1) ∧
      (∀ r < 1, (updatePositionBiases 1 1 1
          ⟨fun _ => 1, fun _ => 1, fun _ => 1, fun _ => 1, fun _ _ => 0, fun _ _ => 0⟩).iCosts r = 0 ∧
        (updatePositionBiases 1 1 1
          ⟨fun _ => 1, fun _ => 1, fun _ => 1, fun _ => 1, fun _ _ => 0, fun _ _ => 0⟩).jCosts r = 0) ∧
      (∀ t < 1, ∀ r < 1, (updatePositionBiases 1 1 1
          ⟨fun _ => 1, fun _ => 1, fun _ => 1, fun _ => 1, fun _ _ => 0, fun _ _ => 0⟩).iBufs t r = 0 ∧
        (updatePositionBiases 1 1 1
          ⟨fun _ => 1, fun _ => 1, fun _ => 1, fun _ => 1, fun _ _ => 0, fun _ _ => 0⟩).jBufs t r = 0)) :=
  ⟨by norm_num, by norm_num [accICosts], by norm_num [accJCosts],
    c2_update_anchor_amended 1 1 1 _ (by norm_num)⟩

/-- C2 counterexample: on an iteration in which no pair contributed any cost
(here: the freshly initialized state, as after an iteration over queries with
uniform labels), `i_costs_[0] = 0` and the anchor update computes
`pow(0/0, eta)`; the model's total division gives `(0)^1 = 0` and IEEE gives
`pow(NaN, 1) = NaN` — under either semantics `i_biases_pow_[0]` is not `1.0`,
so the claim's unconditional "equals exactly 1.0 after each iteration"
fails. -/
theorem c2_update_anchor_counterexample :
    (updatePositionBiases 1 1 1 initBiasState).ipow 0 ≠ 1 := by
  have h0 : accICosts 1 initBiasState 0 = 0 := by
    simp [accICosts, initBiasState]
  unfold updatePositionBiases
  dsimp only
  rw [if_pos (by norm_num : (0:ℕ) < 1), h0, zero_div, Real.zero_rpow one_ne_zero]
  norm_num

/-- C1 (amended): the bias-power arrays are seeded to `1.0` (nonzero), and an
`UpdatePositionBiasesAndGradients` step keeps every entry nonzero provided
every rank below the truncation level accumulated strictly positive cost in
the iteration; without that proviso the update can output an exactly-zero
entry (see the counterexample), so the unconditional invariant claimed does
not hold. -/
theorem c1_bias_nonzero_amended (trunc numThreads : ℕ) (eta : ℝ) (st : BiasState)
    (hpos : ∀ r < trunc, 0 < accICosts numThreads st r ∧ 0 < accJCosts numThreads st r) :
    (∀ r, initBiasState.ipow r = 1 ∧ initBiasState.jpow r = 1) ∧
    (∀ r < trunc, (updatePositionBiases trunc numThreads eta st).ipow r ≠ 0 ∧
      (updatePositionBiases trunc numThreads eta st).jpow r ≠ 0) := by
  refine ⟨fun r => ⟨rfl, rfl⟩, fun r hr => ?_⟩
  have h0 : 0 < trunc := lt_of_le_of_lt (Nat.zero_le r) hr
  obtain ⟨hIr, hJr⟩ := hpos r hr
  obtain ⟨hI0, hJ0⟩ := hpos 0 h0
  unfold updatePositionBiases
  dsimp only
  rw [if_pos hr, if_pos hr]
  constructor
  · exact ne_of_gt (Real.rpow_pos_of_pos (div_pos hIr hI0) eta)
  · exact ne_of_gt (Real.rpow_pos_of_pos (div_pos hJr hJ0) eta)

/-- Witness for the amended C1 on a one-rank, one-thread state with unit
accumulated costs. -/
theorem c1_bias_nonzero_amended_witness :
    (∀ r < 1, 0 < accICosts 1 ⟨fun _ => 1, fun _ => 1, fun _ => 1, fun _ => 1,
        fun _ _ => 0, fun _ _ => 0⟩ r ∧
      0 < accJCosts 1 ⟨fun _ => 1, fun _ => 1, fun _ => 1, fun _ => 1,
        fun _ _ => 0, fun _ _ => 0⟩ r) ∧
    ((∀ r, initBiasState.ipow r = 1 ∧ initBiasState.jpow r = 1) ∧
      (∀ r < 1, (updatePositionBiases 1 1 1 ⟨fun _ => 1, fun _ => 1, fun _ => 1, fun _ => 1,
          fun _ _ => 0, fun _ _ => 0⟩).ipow r ≠ 0 ∧
        (updatePositionBiases 1 1 1 ⟨fun _ => 1, fun _ => 1, fun _ => 1, fun _ => 1,
          fun _ _ => 0, fun _ _ => 0⟩).jpow r ≠ 0)) :=
  ⟨fun r hr => by interval_cases r <;> constructor <;> norm_num [accICosts, accJCosts],
    c1_bias_nonzero_amended 1 1 1 _
      (fun r hr => by interval_cases r <;> constructor <;> norm_num [accICosts, accJCosts])⟩

lemma probeVals_zero : probeVals 0 = 1 := rfl

lemma probeVals_one : probeVals 1 = 0 := rfl

lemma biasProbeQuery_iCostBuf :
    0 < biasProbeQuery.iCostBuf 0 ∧ biasProbeQuery.iCostBuf 1 = 0 := by
  have hs : ¬ probeVals 1 > probeVals 0 := by
    rw [probeVals_zero, probeVals_one]; norm_num
  have hsort := sortedIdx_two hs
  have hu0 : docAt 2 probeVals 0 = 0 := by simp [docAt, hsort]
  have hu1 : docAt 2 probeVals 1 = 1 := by simp [docAt, hsort]
  have hw : worstIdx 2 probeVals = 1 :=
    worstIdx_two (by rw [hu1, probeVals_one]; exact ne_kMinScore (by norm_num))
  have hcond : probeVals (docAt 2 probeVals 1) < probeVals (docAt 2 probeVals 0) := by
    rw [hu0, hu1, probeVals_zero, probeVals_one]; norm_num
  have hhl : pairHighLow probeVals (docAt 2 probeVals) 0 1 = (0, 1) := by
    unfold pairHighLow
    rw [if_pos hcond]
  have hG1 : ¬ probeVals (docAt 2 probeVals 0) = kMinScore := by
    rw [hu0, probeVals_zero]; exact ne_kMinScore (by norm_num)
  have hG2 : ¬ probeVals (docAt 2 probeVals 1) = kMinScore := by
    rw [hu1, probeVals_one]; exact ne_kMinScore (by norm_num)
  have hG3 : ¬ probeVals (docAt 2 probeVals 0) = probeVals (docAt 2 probeVals 1) := by
    rw [hu0, hu1, probeVals_zero, probeVals_one]; norm_num
  have hdn : 0 < pairDeltaNdcg
      ⟨1, false, 2, true, 1, defaultLabelGain, fun _ => 1, fun _ => 1⟩
      probeVals probeVals (docAt 2 probeVals) (probeVals 0) (probeVals 1) 0 1 := by
    unfold pairDeltaNdcg
    rw [hhl]
    dsimp only
    rw [hu0, hu1, probeVals_zero, probeVals_one]
    have ht1 : truncInt 1 = 1 := by norm_num [truncInt]
    have ht0 : truncInt 0 = 0 := by norm_num [truncInt]
    rw [ht1, ht0]
    have hg1 : defaultLabelGain 1 = 1 := by norm_num [defaultLabelGain]
    have hg0 : defaultLabelGain 0 = 0 := by norm_num [defaultLabelGain]
    rw [hg1, hg0]
    have hd0 : discount 0 = 1 := by
      unfold discount
      norm_num [Real.logb_self_eq_one]
    have hd1 : discount 1 = 1 / Real.logb 2 3 := by
      unfold discount
      norm_num
    rw [hd0, hd1]
    have hL : (0:ℝ) < Real.logb 2 3 := lt_trans one_pos one_lt_logb_two_three
    have hinv1 : 1 / Real.logb 2 3 < 1 := (div_lt_one hL).2 one_lt_logb_two_three
    have habs : |1 - 1 / Real.logb 2 3| = 1 - 1 / Real.logb 2 3 :=
      abs_of_pos (by linarith)
    rw [if_pos (And.intro (Or.inr rfl) (by norm_num))]
    rw [habs]
    have h1 : (0:ℝ) < 1 - 1 / Real.logb 2 3 := by linarith
    have h2 : (0:ℝ) < 0.01 + |(1:ℝ) - 0| := by norm_num
    positivity
  have hpc : 0 < pairPCost
      ⟨1, false, 2, true, 1, defaultLabelGain, fun _ => 1, fun _ => 1⟩
      probeVals probeVals (docAt 2 probeVals) (probeVals 0) (probeVals 1) 0 1 := by
    unfold pairPCost
    rw [hhl]
    dsimp only
    refine mul_pos (Real.log_pos ?_) hdn
    have hp1 := getSigmoid_pos 1
      (probeVals (docAt 2 probeVals 0) - probeVals (docAt 2 probeVals 1))
    have hp2 := getSigmoid_lt_one 1
      (probeVals (docAt 2 probeVals 0) - probeVals (docAt 2 probeVals 1))
    exact one_lt_one_div (by linarith) (by linarith)
  have hq : biasProbeQuery =
      stepPair ⟨1, false, 2, true, 1, defaultLabelGain, fun _ => 1, fun _ => 1⟩
        probeVals probeVals (docAt 2 probeVals)
        (probeVals (docAt 2 probeVals 0))
        (probeVals (docAt 2 probeVals (worstIdx 2 probeVals)))
        (initQState 2 (fun _ => 0) (fun _ => 0) (fun _ => 0) (fun _ => 0)) (0, 1) := by
    unfold biasProbeQuery getGradientsForOneQuery
    rw [if_neg (by simp)]
    unfold accState
    rw [pairList_two (by norm_num)]
    rfl
  rw [hw, hu1, hu0] at hq
  rw [hq]
  unfold stepPair
  rw [if_neg hG1, if_neg hG2, if_neg hG3]
  dsimp only
  rw [hhl]
  dsimp only
  rw [if_pos rfl]
  constructor
  · rw [Function.update_same]
    simpa [initQState] using hpc
  · rw [Function.update_noteq one_ne_zero]
    simp [initQState]

/-- C1 counterexample: one unbiased iteration over a single two-document
query with labels `[1, 0]` and scores `[1, 0]` (truncation level 2, `eta_ = 1`,
one thread, freshly seeded bias state) accrues strictly positive `i`-cost at
rank 0 and zero `i`-cost at rank 1, so `UpdatePositionBiasesAndGradients`
computes `i_biases_pow_[1] = pow(0 / positive, 1) = 0` — an entry exactly
equal to zero, contradicting the claimed invariant.  (`0 / positive = 0` and
`pow(0, 1) = 0` hold identically in IEEE arithmetic, so the source reaches
the same zero.) -/
theorem c1_bias_zero_counterexample :
    0 < accICosts 1 biasProbeState 0 ∧
    accICosts 1 biasProbeState 1 = 0 ∧
    (updatePositionBiases 2 1 1 biasProbeState).ipow 1 = 0 := by
  obtain ⟨hpos, hzero⟩ := biasProbeQuery_iCostBuf
  have ha0 : accICosts 1 biasProbeState 0 = biasProbeQuery.iCostBuf 0 := by
    simp [accICosts, biasProbeState]
  have ha1 : accICosts 1 biasProbeState 1 = 0 := by
    simp [accICosts, biasProbeState, hzero]
  refine ⟨ha0 ▸ hpos, ha1, ?_⟩
  unfold updatePositionBiases
  dsimp only
  rw [if_pos (by norm_num : (1:ℕ) < 2), ha1, zero_div, Real.zero_rpow one_ne_zero]

/-- C4 (amended): for a pair occupying ranks `i` and `j` whose two documents
have identical scores and distinct labels, exchanging which document sits at
which rank (what swapping their original positions does under the stable
sort) leaves the pair's lambda and hessian magnitudes unchanged *provided*
the bias-power product is symmetric between the two ranks
(`i_pow[i]*j_pow[j] = i_pow[j]*j_pow[i]`) — in particular always when
unbiased correction is disabled, since then all bias powers are the seeded
`1.0`.  With a non-uniform bias state the magnitude changes by the ratio of
those products (see the counterexample). -/
theorem c4_score_tie_swap_amended (cfg : LambdaCfg) (label score : ℕ → ℝ) (u : ℕ → ℕ)
    (best worst : ℝ) (i j : ℕ) (hij : i ≠ j)
    (hsc : score (u i) = score (u j))
    (hlab : label (u i) ≠ label (u j))
    (hbias : cfg.ipow i * cfg.jpow j = cfg.ipow j * cfg.jpow i) :
    |pairPLambda cfg label score
        (fun r => if r = i then u j else if r = j then u i else u r) best worst i j| =
      |pairPLambda cfg label score u best worst i j| ∧
    |pairPHessian cfg label score
        (fun r => if r = i then u j else if r = j then u i else u r) best worst i j| =
      |pairPHessian cfg label score u best worst i j| := by
  have hui : (if i = i then u j else if i = j then u i else u i) = u j := by
    simp
  have huj : (if j = i then u j else if j = j then u i else u j) = u i := by
    rw [if_neg (Ne.symm hij), if_pos rfl]
  rcases lt_or_gt_of_ne hlab with hlt | hgt
  · have hlO : pairHighLow label u i j = (j, i) := by
      unfold pairHighLow
      rw [if_neg (not_lt.2 hlt.le)]
    have hlS : pairHighLow label
        (fun r => if r = i then u j else if r = j then u i else u r) i j = (i, j) := by
      unfold pairHighLow
      dsimp only
      rw [hui, huj, if_pos hlt]
    have hdN : pairDeltaNdcg cfg label score
        (fun r => if r = i then u j else if r = j then u i else u r) best worst i j =
        pairDeltaNdcg cfg label score u best worst i j := by
      unfold pairDeltaNdcg
      rw [hlO, hlS]
      dsimp only
      rw [hui, huj, abs_sub_comm (discount i) (discount j)]
    have hlam : pairPLambda cfg label score
        (fun r => if r = i then u j else if r = j then u i else u r) best worst i j =
        getSigmoid cfg.sigmoid (score (u j) - score (u i)) *
          (-cfg.sigmoid * pairDeltaNdcg cfg label score u best worst i j /
            (cfg.ipow i * cfg.jpow j)) := by
      unfold pairPLambda
      rw [hlS]
      dsimp only
      rw [hui, huj, hdN, div_div]
    have hlam2 : pairPLambda cfg label score u best worst i j =
        getSigmoid cfg.sigmoid (score (u j) - score (u i)) *
          (-cfg.sigmoid * pairDeltaNdcg cfg label score u best worst i j /
            (cfg.ipow j * cfg.jpow i)) := by
      unfold pairPLambda
      rw [hlO]
      dsimp only
      rw [div_div]
    have hhes : pairPHessian cfg label score
        (fun r => if r = i then u j else if r = j then u i else u r) best worst i j =
        getSigmoid cfg.sigmoid (score (u j) - score (u i)) *
          (1 - getSigmoid cfg.sigmoid (score (u j) - score (u i))) *
          (cfg.sigmoid * cfg.sigmoid * pairDeltaNdcg cfg label score u best worst i j /
            (cfg.ipow i * cfg.jpow j)) := by
      unfold pairPHessian
      rw [hlS]
      dsimp only
      rw [hui, huj, hdN, div_div]
    have hhes2 : pairPHessian cfg label score u best worst i j =
        getSigmoid cfg.sigmoid (score (u j) - score (u i)) *
          (1 - getSigmoid cfg.sigmoid (score (u j) - score (u i))) *
          (cfg.sigmoid * cfg.sigmoid * pairDeltaNdcg cfg label score u best worst i j /
            (cfg.ipow j * cfg.jpow i)) := by
      unfold pairPHessian
      rw [hlO]
      dsimp only
      rw [div_div]
    rw [hlam, hlam2, hhes, hhes2, hbias]
    exact ⟨rfl, rfl⟩
  · have hlO : pairHighLow label u i j = (i, j) := by
      unfold pairHighLow
      rw [if_pos hgt]
    have hlS : pairHighLow label
        (fun r => if r = i then u j else if r = j then u i else u r) i j = (j, i) := by
      unfold pairHighLow
      dsimp only
      rw [hui, huj, if_neg (not_lt.2 hgt.le)]
    have hdN : pairDeltaNdcg cfg label score
        (fun r => if r = i then u j else if r = j then u i else u r) best worst i j =
        pairDeltaNdcg cfg label score u best worst i j := by
      unfold pairDeltaNdcg
      rw [hlO, hlS]
      dsimp only
      rw [hui, huj, abs_sub_comm (discount j) (discount i)]
    have hlam : pairPLambda cfg label score
        (fun r => if r = i then u j else if r = j then u i else u r) best worst i j =
        getSigmoid cfg.sigmoid (score (u i) - score (u j)) *
          (-cfg.sigmoid * pairDeltaNdcg cfg label score u best worst i j /
            (cfg.ipow j * cfg.jpow i)) := by
      unfold pairPLambda
      rw [hlS]
      dsimp only
      rw [hui, huj, hdN, div_div]
    have hlam2 : pairPLambda cfg label score u best worst i j =
        getSigmoid cfg.sigmoid (score (u i) - score (u j)) *
          (-cfg.sigmoid * pairDeltaNdcg cfg label score u best worst i j /
            (cfg.ipow i * cfg.jpow j)) := by
      unfold pairPLambda
      rw [hlO]
      dsimp only
      rw [div_div]
    have hhes : pairPHessian cfg label score
        (fun r => if r = i then u j else if r = j then u i else u r) best worst i j =
        getSigmoid cfg.sigmoid (score (u i) - score (u j)) *
          (1 - getSigmoid cfg.sigmoid (score (u i) - score (u j))) *
          (cfg.sigmoid * cfg.sigmoid * pairDeltaNdcg cfg label score u best worst i j /
            (cfg.ipow j * cfg.jpow i)) := by
      unfold pairPHessian
      rw [hlS]
      dsimp only
      rw [hui, huj, hdN, div_div]
    have hhes2 : pairPHessian cfg label score u best worst i j =
        getSigmoid cfg.sigmoid (score (u i) - score (u j)) *
          (1 - getSigmoid cfg.sigmoid (score (u i) - score (u j))) *
          (cfg.sigmoid * cfg.sigmoid * pairDeltaNdcg cfg label score u best worst i j /
            (cfg.ipow i * cfg.jpow j)) := by
      unfold pairPHessian
      rw [hlO]
      dsimp only
      rw [div_div]
    rw [hlam, hlam2, hhes, hhes2, hbias]
    exact ⟨rfl, rfl⟩

/-- Witness for the amended C4: ranks 0 and 1, identity rank-to-document map,
tied scores `1/2`, labels `[1, 0]`, all bias powers `1` (unbiased off). -/
theorem c4_score_tie_swap_amended_witness :
    ((0:ℕ) ≠ 1 ∧ tieScore 0 = tieScore 1 ∧ probeVals 0 ≠ probeVals 1 ∧
      ((⟨1, false, 2, false, 1, defaultLabelGain, fun _ => 1, fun _ => 1⟩ : LambdaCfg).ipow 0 *
        (⟨1, false, 2, false, 1, defaultLabelGain, fun _ => 1, fun _ => 1⟩ : LambdaCfg).jpow 1 =
        (⟨1, false, 2, false, 1, defaultLabelGain, fun _ => 1, fun _ => 1⟩ : LambdaCfg).ipow 1 *
        (⟨1, false, 2, false, 1, defaultLabelGain, fun _ => 1, fun _ => 1⟩ : LambdaCfg).jpow 0)) ∧
    (|pairPLambda ⟨1, false, 2, false, 1, defaultLabelGain, fun _ => 1, fun _ => 1⟩
        probeVals tieScore (fun r => if r = 0 then 1 else if r = 1 then 0 else r)
        (1/2) (1/2) 0 1| =
      |pairPLambda ⟨1, false, 2, false, 1, defaultLabelGain, fun _ => 1, fun _ => 1⟩
        probeVals tieScore (fun r => r) (1/2) (1/2) 0 1| ∧
    |pairPHessian ⟨1, false, 2, false, 1, defaultLabelGain, fun _ => 1, fun _ => 1⟩
        probeVals tieScore (fun r => if r = 0 then 1 else if r = 1 then 0 else r)
        (1/2) (1/2) 0 1| =
      |pairPHessian ⟨1, false, 2, false, 1, defaultLabelGain, fun _ => 1, fun _ => 1⟩
        probeVals tieScore (fun r => r) (1/2) (1/2) 0 1|) :=
  ⟨⟨by norm_num, rfl, by norm_num [probeVals], rfl⟩,
    c4_score_tie_swap_amended _ probeVals tieScore (fun r => r) (1/2) (1/2) 0 1
      (by norm_num) rfl (by norm_num [probeVals]) rfl⟩

lemma lambdas_two_eval (cfg : LambdaCfg) (label score L0 H0 iB0 jB0 : ℕ → ℝ)
    (htr : 1 ≤ cfg.trunc) (hnorm : cfg.norm = false)
    (hG1 : ¬ score (docAt 2 score 0) = kMinScore)
    (hG2 : ¬ score (docAt 2 score 1) = kMinScore)
    (hG3 : ¬ label (docAt 2 score 0) = label (docAt 2 score 1)) :
    (getGradientsForOneQuery cfg 2 label score L0 H0 iB0 jB0).lambdas
        (docAt 2 score ((pairHighLow label (docAt 2 score) 0 1).1)) =
      pairPLambda cfg label score (docAt 2 score) (score (docAt 2 score 0))
        (score (docAt 2 score (worstIdx 2 score))) 0 1 := by
  have hacc : getGradientsForOneQuery cfg 2 label score L0 H0 iB0 jB0 =
      accState cfg 2 label score L0 H0 iB0 jB0 := by
    unfold getGradientsForOneQuery
    rw [if_neg]
    intro hc
    rw [hnorm] at hc
    exact absurd hc.1 (by simp)
  rw [hacc]
  unfold accState
  rw [pairList_two htr]
  simp only [List.foldl_cons, List.foldl_nil]
  unfold stepPair
  rw [if_neg hG1, if_neg hG2, if_neg hG3]
  dsimp only
  have hcase := pairHighLow_cases label (docAt 2 score) 0 1
  have hneq : docAt 2 score ((pairHighLow label (docAt 2 score) 0 1).1) ≠
      docAt 2 score ((pairHighLow label (docAt 2 score) 0 1).2) := by
    rcases hcase with hc | hc <;> rw [hc] <;>
      exact docAt_inj (by norm_num) (by norm_num) (by norm_num)
  have hlt2 : docAt 2 score ((pairHighLow label (docAt 2 score) 0 1).1) < 2 := by
    rcases hcase with hc | hc <;> rw [hc] <;> exact docAt_lt (by norm_num)
  rw [Function.update_same, Function.update_noteq hneq]
  dsimp only [initQState]
  rw [if_pos hlt2, zero_add]

/-- C4 counterexample: with unbiased correction enabled and the reachable
non-uniform bias state `j_biases_pow_ = [1, 2]`, the same two documents
(labels `1` and `0`, scores tied at `1/2`) produce a pair contribution of
magnitude `p*D/2` when the higher-labelled document sits first but `p*D`
when the documents are swapped: the high/low role follows the labels, but
the bias-power divisors follow the ranks, so the magnitude is not invariant
under the swap. -/
theorem c4_swap_magnitude_counterexample :
    |(getGradientsForOneQuery tiltedCfg 2 probeVals tieScore
        (fun _ => 0) (fun _ => 0) (fun _ => 0) (fun _ => 0)).lambdas 0| ≠
    |(getGradientsForOneQuery tiltedCfg 2 swapVals tieScore
        (fun _ => 0) (fun _ => 0) (fun _ => 0) (fun _ => 0)).lambdas 1| := by
  have hsT : ¬ tieScore 1 > tieScore 0 := by norm_num [tieScore]
  have hsortT := sortedIdx_two hsT
  have hu0 : docAt 2 tieScore 0 = 0 := by simp [docAt, hsortT]
  have hu1 : docAt 2 tieScore 1 = 1 := by simp [docAt, hsortT]
  have hwT : worstIdx 2 tieScore = 1 :=
    worstIdx_two (by rw [hu1]; exact ne_kMinScore (by norm_num [tieScore]))
  have hG1 : ¬ tieScore (docAt 2 tieScore 0) = kMinScore := by
    rw [hu0]; exact ne_kMinScore (by norm_num [tieScore])
  have hG2 : ¬ tieScore (docAt 2 tieScore 1) = kMinScore := by
    rw [hu1]; exact ne_kMinScore (by norm_num [tieScore])
  have hG3A : ¬ probeVals (docAt 2 tieScore 0) = probeVals (docAt 2 tieScore 1) := by
    rw [hu0, hu1, probeVals_zero, probeVals_one]; norm_num
  have hG3B : ¬ swapVals (docAt 2 tieScore 0) = swapVals (docAt 2 tieScore 1) := by
    rw [hu0, hu1]; norm_num [swapVals]
  have hlA : pairHighLow probeVals (docAt 2 tieScore) 0 1 = (0, 1) := by
    unfold pairHighLow
    rw [if_pos (by rw [hu0, hu1, probeVals_zero, probeVals_one]; norm_num)]
  have hlB : pairHighLow swapVals (docAt 2 tieScore) 0 1 = (1, 0) := by
    unfold pairHighLow
    rw [if_neg (by rw [hu0, hu1]; norm_num [swapVals])]
  have hL : (0:ℝ) < Real.logb 2 3 := lt_trans one_pos one_lt_logb_two_three
  have hinv1 : 1 / Real.logb 2 3 < 1 := (div_lt_one hL).2 one_lt_logb_two_three
  have hD : (0:ℝ) < 1 - 1 / Real.logb 2 3 := by linarith
  have hd0 : discount 0 = 1 := by
    unfold discount
    norm_num [Real.logb_self_eq_one]
  have hd1 : discount 1 = 1 / Real.logb 2 3 := by
    unfold discount
    norm_num
  have ht1 : truncInt 1 = 1 := by norm_num [truncInt]
  have ht0 : truncInt 0 = 0 := by norm_num [truncInt]
  have hg1 : defaultLabelGain 1 = 1 := by norm_num [defaultLabelGain]
  have hg0 : defaultLabelGain 0 = 0 := by norm_num [defaultLabelGain]
  have hdNA : pairDeltaNdcg tiltedCfg probeVals tieScore (docAt 2 tieScore)
      (tieScore 0) (tieScore 1) 0 1 = 1 - 1 / Real.logb 2 3 := by
    unfold pairDeltaNdcg tiltedCfg
    rw [hlA]
    dsimp only
    rw [if_neg (fun hc => hc.2 rfl)]
    rw [hu0, hu1, probeVals_zero, probeVals_one, ht1, ht0, hg1, hg0, hd0, hd1]
    rw [abs_of_pos hD]
    ring
  have hdNB : pairDeltaNdcg tiltedCfg swapVals tieScore (docAt 2 tieScore)
      (tieScore 0) (tieScore 1) 0 1 = 1 - 1 / Real.logb 2 3 := by
    unfold pairDeltaNdcg tiltedCfg
    rw [hlB]
    dsimp only
    rw [if_neg (fun hc => hc.2 rfl)]
    rw [hu0, hu1]
    rw [show swapVals 1 = 1 from rfl, show swapVals 0 = 0 from rfl]
    rw [ht1, ht0, hg1, hg0, hd0, hd1]
    rw [abs_sub_comm, abs_of_pos hD]
    ring
  have hevalA := lambdas_two_eval tiltedCfg probeVals tieScore
    (fun _ => 0) (fun _ => 0) (fun _ => 0) (fun _ => 0)
    (by norm_num [tiltedCfg]) rfl hG1 hG2 hG3A
  have hevalB := lambdas_two_eval tiltedCfg swapVals tieScore
    (fun _ => 0) (fun _ => 0) (fun _ => 0) (fun _ => 0)
    (by norm_num [tiltedCfg]) rfl hG1 hG2 hG3B
  rw [hlA] at hevalA
  rw [hlB] at hevalB
  dsimp only at hevalA hevalB
  rw [hwT, hu0, hu1] at hevalA
  rw [hwT, hu0, hu1] at hevalB
  have hsig : tiltedCfg.sigmoid = 1 := rfl
  have hip0 : tiltedCfg.ipow 0 = 1 := rfl
  have hip1 : tiltedCfg.ipow 1 = 1 := rfl
  have hjp0 : tiltedCfg.jpow 0 = 1 := rfl
  have hjp1 : tiltedCfg.jpow 1 = 2 := rfl
  have hz : tieScore 0 - tieScore 1 = (0:ℝ) := by norm_num [tieScore]
  have hz2 : tieScore 1 - tieScore 0 = (0:ℝ) := by norm_num [tieScore]
  have hlamA : pairPLambda tiltedCfg probeVals tieScore (docAt 2 tieScore)
      (tieScore 0) (tieScore 1) 0 1 =
      -(getSigmoid 1 0 * ((1 - 1 / Real.logb 2 3) / 2)) := by
    unfold pairPLambda
    rw [hlA]
    dsimp only
    rw [hu0, hu1, hz, hsig, hip0, hjp1, hdNA]
    ring
  have hlamB : pairPLambda tiltedCfg swapVals tieScore (docAt 2 tieScore)
      (tieScore 0) (tieScore 1) 0 1 =
      -(getSigmoid 1 0 * (1 - 1 / Real.logb 2 3)) := by
    unfold pairPLambda
    rw [hlB]
    dsimp only
    rw [hu0, hu1, hz2, hsig, hip1, hjp0, hdNB]
    ring
  rw [hevalA, hevalB, hlamA, hlamB, abs_neg, abs_neg]
  have hp := getSigmoid_pos 1 0
  rw [abs_of_pos (by positivity), abs_of_pos (by positivity)]
  intro heq
  have hpd := mul_pos hp hD
  nlinarith [heq, hpd]
